import Mathlib

/-!
Verification of the option-calculator repository.

JavaScript numbers are modelled as exact rationals (ℚ): every representable
value is finite, so `Number.isFinite` checks on already-numeric values are
identically true and are noted in doc comments rather than re-encoded.
`Number.isInteger x` becomes `x.den = 1`, `Math.floor` becomes `⌊·⌋`,
`Math.round x` becomes `⌊x + 1/2⌋`.  Functions that can `throw` return
`Except String`.  Strings are Lean `String`s manipulated through their
character lists; JS `\s` / `trim` whitespace is modelled by
`Char.isWhitespace` (ASCII whitespace), and `toUpperCase`/`toLowerCase`
by the ASCII `Char.toUpper`/`Char.toLower`.
-/

namespace OptionCalc

/-- Decidable equality for `Except`, used to evaluate the embedding on
concrete inputs. -/
instance exceptDecEq {ε α : Type} [DecidableEq ε] [DecidableEq α] :
    DecidableEq (Except ε α) := fun x y =>
  match x, y with
  | .ok a, .ok b => if h : a = b then .isTrue (by rw [h]) else .isFalse (by simp [h])
  | .error a, .error b => if h : a = b then .isTrue (by rw [h]) else .isFalse (by simp [h])
  | .ok _, .error _ => .isFalse (by simp)
  | .error _, .ok _ => .isFalse (by simp)

/-- Model of JS `String.prototype.trim`. -/
def jsTrim (s : String) : String :=
  ((s.toList.dropWhile Char.isWhitespace).reverse.dropWhile Char.isWhitespace).reverse.asString

/-- Model of JS `String.prototype.toUpperCase` (ASCII). -/
def jsToUpper (s : String) : String :=
  (s.toList.map Char.toUpper).asString

/-- Model of JS `String.prototype.toLowerCase` (ASCII). -/
def jsToLower (s : String) : String :=
  (s.toList.map Char.toLower).asString

/-- Model of JS `String.prototype.padStart(n, c)`. -/
def jsPadStart (s : String) (n : Nat) (c : Char) : String :=
  (List.replicate (n - s.toList.length) c ++ s.toList).asString

/-- Model of JS `String.prototype.slice(a, b)` with relative (possibly
negative) indices. -/
def jsSlice (s : String) (a b : ℤ) : String :=
  let l := s.toList
  let n : ℤ := l.length
  let lo : ℕ := (if a < 0 then max (n + a) 0 else min a n).toNat
  let hi : ℕ := (if b < 0 then max (n + b) 0 else min b n).toNat
  ((l.drop lo).take (hi - lo)).asString

/-- Model of JS one-argument `String.prototype.slice(a)`. -/
def jsSlice1 (s : String) (a : ℤ) : String :=
  jsSlice s a s.toList.length

/-- From `src/src/integrations/alpaca/normalize.ts`:
`sanitizeOptionSymbol` strips all whitespace (`replace(/\s+/g, "")`) and
uppercases. -/
def sanitizeOptionSymbol (symbol : String) : String :=
  ((symbol.toList.filter (fun c => !c.isWhitespace)).map Char.toUpper).asString

/-- `STRIKE_EPSILON` from `normalize.ts`. -/
def STRIKE_EPSILON : ℚ := 1 / 1000000

/-- `approxEqual` from `normalize.ts` (the call sites all use the default
epsilon, which the embedding passes explicitly). -/
def approxEqual (a b epsilon : ℚ) : Bool :=
  decide (|a - b| ≤ epsilon)

/-- Model of JS `Number.isInteger` on an (always finite) rational. -/
def jsIsInteger (q : ℚ) : Bool :=
  q.den == 1

/-- Model of JS `ToIntegerOrInfinity` truncation toward zero of a finite
number, as used by the `Date` constructor on a millisecond value. -/
def ratTrunc (q : ℚ) : ℤ :=
  if 0 ≤ q then ⌊q⌋ else -⌊-q⌋

/-! ## Payoff engine: `src/unnamed/part_000` (`resolveContracts`) and
`src/src/core/spreads/bullCall.ts` -/

/-- The exported `portfolioSize` constant (`export const portfolioSize = 100000`). -/
def portfolioSize : ℚ := 100000

structure ResolveContractsArgs where
  contracts : Option ℚ
  portfolioSizeValue : Option ℚ
  netDebitPerShare : ℚ
  contractSize : ℚ
deriving DecidableEq

/-- `resolveContracts` from the sizing module.  The destructuring default
`portfolioSizeValue = portfolioSize` replaces an absent (or `undefined`)
portfolio size with the constant 100000 before the body runs, which makes
the source's later `portfolioSizeValue === undefined` branch unreachable;
the embedding therefore resolves the default first and has no such branch.
The `Number.isFinite` checks on `netDebitPerShare`, `portfolioSizeValue`
and `perContractCost` are identically true on ℚ. -/
def resolveContracts (args : ResolveContractsArgs) : Except String ℚ :=
  let portfolioSizeValue : ℚ := args.portfolioSizeValue.getD portfolioSize
  if ¬ jsIsInteger args.contractSize ∨ args.contractSize ≤ 0 then
    .error "contractSize must be a positive integer."
  else if args.netDebitPerShare < 0 then
    .error "netDebitPerShare (debit) cannot be negative."
  else
    match args.contracts with
    | some contracts =>
      if ¬ jsIsInteger contracts ∨ contracts ≤ 0 then
        .error "contracts must be a positive integer."
      else .ok contracts
    | none =>
      if portfolioSizeValue ≤ 0 then
        .error "portfolioSize must be a positive finite number."
      else
        let perContractCost := args.netDebitPerShare * args.contractSize
        if perContractCost ≤ 0 then .ok 1
        else
          let maxContracts : ℤ := ⌊portfolioSizeValue / perContractCost⌋
          if maxContracts ≤ 0 then
            .error "Portfolio size too small to fund a single contract at this debit."
          else .ok (maxContracts : ℚ)

structure BullCallSpreadArgs where
  longStrike : ℚ
  shortStrike : ℚ
  priceAtExpiry : ℚ
  netDebitPerShare : ℚ
  contractSize : Option ℚ
  contracts : Option ℚ
  portfolioSize : Option ℚ
deriving DecidableEq

/-- `bullCallSpreadProfit` from `bullCall.ts`.  The
`[...].every(Number.isFinite)` validation is identically true on ℚ. -/
def bullCallSpreadProfit (opts : BullCallSpreadArgs) : Except String ℚ :=
  let contractSize := opts.contractSize.getD 100
  if opts.shortStrike ≤ opts.longStrike then
    .error "For a bull call spread, longStrike must be LESS than shortStrike."
  else if opts.netDebitPerShare < 0 then
    .error "netDebitPerShare (debit) cannot be negative."
  else if ¬ jsIsInteger contractSize ∨ contractSize ≤ 0 then
    .error "contractSize must be a positive integer."
  else
    match resolveContracts
        { contracts := opts.contracts
          portfolioSizeValue := opts.portfolioSize
          netDebitPerShare := opts.netDebitPerShare
          contractSize := contractSize } with
    | .error e => .error e
    | .ok effectiveContracts =>
      let width := opts.shortStrike - opts.longStrike
      let intrinsicPerShare := max 0 (min (opts.priceAtExpiry - opts.longStrike) width)
      let profitPerShare := intrinsicPerShare - opts.netDebitPerShare
      .ok (profitPerShare * contractSize * effectiveContracts)

structure MaxProfitArgs where
  longStrike : ℚ
  shortStrike : ℚ
  netDebitPerShare : ℚ
  contractSize : Option ℚ
deriving DecidableEq

/-- `bullCallSpreadMaxProfitPerContract` from `bullCall.ts`. -/
def bullCallSpreadMaxProfitPerContract (opts : MaxProfitArgs) : Except String ℚ :=
  let contractSize := opts.contractSize.getD 100
  if opts.shortStrike ≤ opts.longStrike then
    .error "longStrike must be LESS than shortStrike."
  else if opts.netDebitPerShare < 0 then
    .error "netDebitPerShare (debit) cannot be negative."
  else
    .ok ((opts.shortStrike - opts.longStrike - opts.netDebitPerShare) * contractSize)

structure MaxLossArgs where
  netDebitPerShare : ℚ
  contractSize : Option ℚ
deriving DecidableEq

/-- `bullCallSpreadMaxLossPerContract` from `bullCall.ts`. -/
def bullCallSpreadMaxLossPerContract (opts : MaxLossArgs) : Except String ℚ :=
  let contractSize := opts.contractSize.getD 100
  if opts.netDebitPerShare < 0 then
    .error "netDebitPerShare must be a non-negative finite number."
  else if ¬ jsIsInteger contractSize ∨ contractSize ≤ 0 then
    .error "contractSize must be a positive integer."
  else
    .ok (opts.netDebitPerShare * contractSize * (-1))

structure BreakevenArgs where
  longStrike : ℚ
  netDebitPerShare : ℚ
deriving DecidableEq

/-- `bullCallSpreadBreakeven` from `bullCall.ts`. -/
def bullCallSpreadBreakeven (opts : BreakevenArgs) : Except String ℚ :=
  if opts.netDebitPerShare < 0 then
    .error "netDebitPerShare (debit) cannot be negative."
  else
    .ok (opts.longStrike + opts.netDebitPerShare)

/-! ## JS number-from-string conversion

`jsStringToNumber` models ECMAScript `ToNumber` on strings, restricted to
decimal literals (optional sign, integer/fraction digits, optional
exponent) and the empty string.  `Infinity` forms and anything else
non-decimal (including hexadecimal/octal/binary literal forms) are
modelled as "not a finite number" (`none`), which is how every caller in
the repository treats them. -/

/-- Value of a list of decimal digit characters. -/
def digitsToNat (cs : List Char) : ℕ :=
  cs.foldl (fun a c => a * 10 + (c.toNat - 48)) 0

/-- Exponent-part parser: accepts the empty remainder, or `e`/`E` followed
by an optionally signed digit run; anything else is not a number. -/
def jsParseExpDigits (base : ℚ) (sgn : ℤ) (cs : List Char) : Option ℚ :=
  let ds := cs.takeWhile Char.isDigit
  if ds.isEmpty ∨ ¬ (cs.dropWhile Char.isDigit).isEmpty then none
  else some (base * (10 : ℚ) ^ (sgn * (digitsToNat ds : ℤ)))

/-- See `jsParseExpDigits`. -/
def jsParseExpPart (base : ℚ) : List Char → Option ℚ
  | [] => some base
  | c :: rest =>
    if c = 'e' ∨ c = 'E' then
      match rest with
      | '+' :: r => jsParseExpDigits base 1 r
      | '-' :: r => jsParseExpDigits base (-1) r
      | r => jsParseExpDigits base 1 r
    else none

/-- Sign application for `jsStringToNumber` (negation rather than
multiplication by ±1, which is the same JS value). -/
def applySign (neg : Bool) (q : ℚ) : ℚ :=
  if neg then -q else q

/-- Model of JS `Number(string)`; `none` means NaN or infinite. -/
def jsStringToNumber (s : String) : Option ℚ :=
  match (jsTrim s).toList with
  | [] => some 0
  | _ :: _ =>
    let body : Bool × List Char :=
      match (jsTrim s).toList with
      | '+' :: r => (false, r)
      | '-' :: r => (true, r)
      | r => (false, r)
    let neg := body.1
    if body.2 = "Infinity".toList then none
    else
      match body.2 with
      | '.' :: r =>
        let frac := r.takeWhile Char.isDigit
        if frac.isEmpty then none
        else
          (jsParseExpPart ((digitsToNat frac : ℚ) / 10 ^ frac.length)
            (r.dropWhile Char.isDigit)).map (applySign neg)
      | bodyRest =>
        let intPart := bodyRest.takeWhile Char.isDigit
        let rest := bodyRest.dropWhile Char.isDigit
        if intPart.isEmpty then none
        else
          match rest with
          | '.' :: r2 =>
            let frac := r2.takeWhile Char.isDigit
            (jsParseExpPart
              ((digitsToNat intPart : ℚ) + (digitsToNat frac : ℚ) / 10 ^ frac.length)
              (r2.dropWhile Char.isDigit)).map (applySign neg)
          | _ => (jsParseExpPart (digitsToNat intPart : ℚ) rest).map (applySign neg)

/-! ## Dates

Proleptic-Gregorian civil-date/epoch-day conversions (the standard
`days_from_civil` / `civil_from_days` algorithms), used to model
`Date.parse`, `Date.UTC` and `Date.prototype.toISOString`. -/

/-- Milliseconds bound of a valid JS time value. -/
def MAX_JS_TIME : ℤ := 8640000000000000

def isLeapYear (y : ℤ) : Bool :=
  y % 4 = 0 ∧ (y % 100 ≠ 0 ∨ y % 400 = 0)

def daysInMonth (y m : ℤ) : ℤ :=
  if m = 2 then (if isLeapYear y then 29 else 28)
  else if m = 4 ∨ m = 6 ∨ m = 9 ∨ m = 11 then 30
  else 31

/-- Days since 1970-01-01 of a civil date; linear in `d`, so out-of-range
days roll over exactly as JS `Date.UTC` does. -/
def daysFromCivil (y m d : ℤ) : ℤ :=
  let y2 := y - (if m ≤ 2 then 1 else 0)
  let era := Int.fdiv y2 400
  let yoe := y2 - era * 400
  let mp := (m + 9) % 12
  let doy := Int.fdiv (153 * mp + 2) 5 + d - 1
  let doe := yoe * 365 + Int.fdiv yoe 4 - Int.fdiv yoe 100 + doy
  era * 146097 + doe - 719468

/-- Civil date `(y, m, d)` of a count of days since 1970-01-01. -/
def civilFromDays (z : ℤ) : ℤ × ℤ × ℤ :=
  let z2 := z + 719468
  let era := Int.fdiv z2 146097
  let doe := z2 - era * 146097
  let yoe := Int.fdiv (doe - Int.fdiv doe 1460 + Int.fdiv doe 36524 - Int.fdiv doe 146096) 365
  let y := yoe + era * 400
  let doy := doe - (365 * yoe + Int.fdiv yoe 4 - Int.fdiv yoe 100)
  let mp := Int.fdiv (5 * doy + 2) 153
  let d := doy - Int.fdiv (153 * mp + 2) 5 + 1
  let m := mp + (if mp < 10 then 3 else -9)
  (y + (if m ≤ 2 then 1 else 0), m, d)

/-- Date part of `Date.prototype.toISOString` (expanded-year form outside
`[0, 9999]`). -/
def isoDateString (y m d : ℤ) : String :=
  (if 0 ≤ y ∧ y ≤ 9999 then jsPadStart (toString y) 4 '0'
   else (if y < 0 then "-" else "+") ++ jsPadStart (toString |y|) 6 '0')
  ++ "-" ++ jsPadStart (toString m) 2 '0' ++ "-" ++ jsPadStart (toString d) 2 '0'

/-- Model of `Date.prototype.toISOString` on a millisecond time value;
`none` models the `RangeError` on an invalid time value. -/
def jsToISOString (ms : ℤ) : Option String :=
  if |ms| > MAX_JS_TIME then none
  else
    let days := Int.fdiv ms 86400000
    let rem := ms - days * 86400000
    let c := civilFromDays days
    some (isoDateString c.1 c.2.1 c.2.2
      ++ "T" ++ jsPadStart (toString (Int.fdiv rem 3600000)) 2 '0'
      ++ ":" ++ jsPadStart (toString (Int.fdiv rem 60000 % 60)) 2 '0'
      ++ ":" ++ jsPadStart (toString (Int.fdiv rem 1000 % 60)) 2 '0'
      ++ "." ++ jsPadStart (toString (rem % 1000)) 3 '0' ++ "Z")

/-- Numeric value of a decimal digit character. -/
def charDigit (c : Char) : ℤ :=
  (c.toNat : ℤ) - 48

/-- The components of a string matching `/^\d{4}-\d{2}-\d{2}$/` (shape
only, no range check — exactly the test used by
`normalizeExpirationInput`). -/
def parseYMDShape (s : String) : Option (ℤ × ℤ × ℤ) :=
  match s.toList with
  | [a, b, c, d, '-', e, f, '-', g, h] =>
    if [a, b, c, d, e, f, g, h].all Char.isDigit then
      some (1000 * charDigit a + 100 * charDigit b + 10 * charDigit c + charDigit d,
        10 * charDigit e + charDigit f, 10 * charDigit g + charDigit h)
    else none
  | _ => none

/-- The regex test `/^\d{4}-\d{2}-\d{2}$/.test s`. -/
def isIsoDateShape (s : String) : Bool :=
  (parseYMDShape s).isSome

/-- A `YYYY-MM-DD` string that denotes a real calendar date — the strings
the ECMAScript ISO date parser accepts (out-of-range components make
`Date.parse` / `new Date` return NaN). -/
def parseYMDValid (s : String) : Option (ℤ × ℤ × ℤ) :=
  match parseYMDShape s with
  | none => none
  | some (y, m, d) =>
    if 1 ≤ m ∧ m ≤ 12 ∧ 1 ≤ d ∧ d ≤ daysInMonth y m then some (y, m, d) else none

/-- Model of `Date.parse` on the expiration strings this repository
produces, namely date-only ISO `YYYY-MM-DD` strings interpreted at UTC
midnight; every other input is modelled as NaN (`none`).  (Engines also
parse other formats, but no value flowing into the modelled calls has
them.) -/
def dateParseMs (s : String) : Option ℤ :=
  (parseYMDValid s).map fun c => daysFromCivil c.1 c.2.1 c.2.2 * 86400000

/-- `expirationToUnixSeconds` from `normalize.ts`. -/
def expirationToUnixSeconds (expiration : String) : Except String ℤ :=
  match dateParseMs expiration with
  | none => .error (s!"Unable to parse expiration date \x22{expiration}\x22.")
  | some ms => .ok (Int.fdiv ms 1000)

/-- `normalizeExpirationInput` from `normalize.ts`.  The final fallback of
the source — generic `new Date(string)` parsing of a non-ISO,
non-numeric string — is implementation-defined in ECMAScript and is
modelled as the failure branch the source uses when that parse yields
NaN.  No call in the repository reaches that branch with an
engine-parsable string. -/
def normalizeExpirationInput (input : String) : Except String String :=
  let trimmed := jsTrim input
  if trimmed = "" then .error "Expiration value cannot be empty."
  else if isIsoDateShape trimmed then .ok trimmed
  else
    match jsStringToNumber trimmed with
    | some numeric =>
      if 0 < numeric then
        let msq : ℚ := numeric * (if 10000000000 < numeric then 1 else 1000)
        match jsToISOString (ratTrunc msq) with
        | none => .error (s!"Unable to interpret expiration \x22{input}\x22.")
        | some iso => .ok (jsSlice iso 0 10)
      else .error (s!"Unable to interpret expiration \x22{input}\x22. Use YYYY-MM-DD.")
    | none => .error (s!"Unable to interpret expiration \x22{input}\x22. Use YYYY-MM-DD.")

/-! ## JSON values

Upstream payloads are JSON trees.  Objects are modelled as association
lists in key order; `jGet` returns the first binding (`JSON.parse` never
produces duplicate keys).  JS iterates integer-like object keys first;
none of the modelled payloads' behaviour observed by the claims depends
on that reordering, so insertion order is used. -/

inductive Json where
  | null
  | bool (b : Bool)
  | num (q : ℚ)
  | str (s : String)
  | arr (items : List Json)
  | obj (fields : List (String × Json))

/-- Property access `v[k]`; `none` is JS `undefined`. -/
def jGet (v : Json) (k : String) : Option Json :=
  match v with
  | .obj fields => fields.lookup k
  | _ => none

/-- A nullish-coalescing chain `v[k₁] ?? v[k₂] ?? …`: the first key whose
value is present and not `null`. -/
def jGetCoalesce (v : Json) : List String → Option Json
  | [] => none
  | k :: ks =>
    match jGet v k with
    | some .null => jGetCoalesce v ks
    | some j => some j
    | none => jGetCoalesce v ks

/-- The JS `in` operator: key presence regardless of value. -/
def hasKey (v : Json) (k : String) : Bool :=
  match v with
  | .obj fields => fields.any (fun kv => kv.1 == k)
  | _ => false

/-- `toFiniteNumber` from `normalize.ts`, on a possibly-absent JSON
value. -/
def toFiniteNumber (value : Option Json) : Option ℚ :=
  match value with
  | some (.num q) => some q
  | some (.str s) => if jsTrim s ≠ "" then jsStringToNumber s else none
  | _ => none

/-! ## Quote normalizer -/

structure NormalizedQuote where
  ask : Option ℚ
  bid : Option ℚ
  last : Option ℚ
  mid : Option ℚ
deriving DecidableEq

structure NormalizedContract where
  symbol : String
  strike : ℚ
  expiration : String
  quote : Option NormalizedQuote
deriving DecidableEq

/-- `extractQuoteFields` from `normalize.ts`: prioritized alias chains per
price type. -/
def extractQuoteFields (raw : Json) : Option NormalizedQuote :=
  let ask := toFiniteNumber (jGet raw "ask_price") <|> toFiniteNumber (jGet raw "ask") <|>
    toFiniteNumber (jGet raw "ap") <|> toFiniteNumber (jGet raw "askPrice") <|>
    toFiniteNumber (jGet raw "ask_value")
  let bid := toFiniteNumber (jGet raw "bid_price") <|> toFiniteNumber (jGet raw "bid") <|>
    toFiniteNumber (jGet raw "bp") <|> toFiniteNumber (jGet raw "bidPrice") <|>
    toFiniteNumber (jGet raw "bid_value")
  let last := toFiniteNumber (jGet raw "last_price") <|> toFiniteNumber (jGet raw "last") <|>
    toFiniteNumber (jGet raw "lp") <|> toFiniteNumber (jGet raw "lastPrice") <|>
    toFiniteNumber (jGet raw "trade_price")
  let mid := toFiniteNumber (jGet raw "mid_price") <|> toFiniteNumber (jGet raw "mid") <|>
    toFiniteNumber (jGet raw "mark_price") <|> toFiniteNumber (jGet raw "mark") <|>
    toFiniteNumber (jGet raw "theoretical")
  if ask.isSome ∨ bid.isSome ∨ last.isSome ∨ mid.isSome then
    some { ask := ask, bid := bid, last := last, mid := mid }
  else none

/-- `normalizeQuote` from `normalize.ts`: direct extraction, then one
level of nesting under known quote-container keys. -/
def normalizeQuote (raw : Json) : Option NormalizedQuote :=
  match raw with
  | .arr _ | .obj _ =>
    match extractQuoteFields raw with
    | some direct => some direct
    | none =>
      match jGetCoalesce raw ["quote", "quotes", "last_quote", "latestQuote", "latest_quote"] with
      | some maybeQuote =>
        match maybeQuote with
        | .arr _ | .obj _ => extractQuoteFields maybeQuote
        | _ => none
      | none => none
  | _ => none

/-- `computeMidFromQuote` from `normalize.ts`.  On ℚ the mean of two
present values is always finite, so the source's `Number.isFinite`
re-checks are identically true. -/
def computeMidFromQuote (quote : NormalizedQuote) (description : String) : Except String ℚ :=
  match quote.bid, quote.ask with
  | some b, some a => .ok ((b + a) / 2)
  | _, _ =>
    match quote.mid with
    | some m => .ok m
    | none =>
      match quote.last with
      | some l => .ok l
      | none =>
        match quote.ask with
        | some a => .ok a
        | none =>
          match quote.bid with
          | some b => .ok b
          | none => .error ("No usable quote data available for " ++ description ++ ".")

/-! ## Symbol codec -/

inductive OptionType where
  | call
  | put
deriving DecidableEq

/-- `optionTypeFromSymbolOrField`: the explicit-field half. -/
def optionTypeFromField (field : Option Json) : Option OptionType :=
  match field with
  | some (.str s) =>
    let normalized := jsToLower (jsTrim s)
    if normalized = "call" ∨ normalized = "c" ∨ normalized = "buy_call" then some .call
    else if normalized = "put" ∨ normalized = "p" ∨ normalized = "buy_put" then some .put
    else none
  | _ => none

/-- `optionTypeFromSymbolOrField` from `normalize.ts`: prefers the explicit
type field, falling back to the 9th-from-last character of the sanitized
symbol. -/
def optionTypeFromSymbolOrField (symbol : Option String) (field : Option Json) : Option OptionType :=
  match optionTypeFromField field with
  | some t => some t
  | none =>
    match symbol with
    | some s =>
      if s ≠ "" then
        let typeChar := jsSlice (sanitizeOptionSymbol s) (-9) (-8)
        if typeChar = "C" then some .call
        else if typeChar = "P" then some .put
        else none
      else none
    | none => none

inductive OccType where
  | C
  | P
deriving DecidableEq

def occTypeStr : OccType → String
  | .C => "C"
  | .P => "P"

/-- `buildOccOptionSymbol` from `normalize.ts`.  The source parses
`expiration + "T00:00:00Z"` with `new Date`; that string is a valid time
value exactly when `expiration` is an in-range `YYYY-MM-DD` date, and the
UTC components it then reads back are the parsed ones.  `Math.round` on ℚ
is `⌊· + 1/2⌋`, always finite. -/
def buildOccOptionSymbol (underlying expiration : String) (strike : ℚ)
    (type : OccType) : Except String String :=
  let upper := jsToUpper (jsTrim underlying)
  if upper = "" then .error "Underlying symbol cannot be empty."
  else
    match parseYMDValid expiration with
    | none => .error (s!"Invalid expiration date \x22{expiration}\x22.")
    | some (y, m, d) =>
      let strikeInt : ℤ := ⌊strike * 1000 + 1 / 2⌋
      let strikeStr := jsPadStart (toString strikeInt) 8 '0'
      .ok (upper ++ jsSlice1 (toString y) (-2) ++ jsPadStart (toString m) 2 '0'
        ++ jsPadStart (toString d) 2 '0' ++ occTypeStr type ++ strikeStr)

/-! ## Chain resolver: `src/src/integrations/alpaca/options.ts`

`gatherContractsFromResponse` recursively traverses an arbitrary JSON
tree, considering each object node that looks like an option contract.
The source pushes into a mutable `results` array guarded by a `seen`
dedup set; the embedding threads that state explicitly.  The dedup key
`` `${symbol}-${expirationIso}-${strike}` `` is modelled as the triple
itself (string collisions across the `-` separators are not modelled;
JS number-to-string formatting of `strike` is likewise kept abstract). -/

structure GatherState where
  results : List NormalizedContract
  seen : List (String × String × ℚ)
deriving DecidableEq

/-- The symbol alias chain of `consider`
(`candidate.symbol ?? option_symbol ?? occ_symbol ?? OCCSymbol ??
contract_symbol`, kept when it is a string). -/
def candidateSymbol (fields : List (String × Json)) : Option String :=
  match jGetCoalesce (.obj fields)
      ["symbol", "option_symbol", "occ_symbol", "OCCSymbol", "contract_symbol"] with
  | some (.str s) => some s
  | _ => none

/-- The type-field alias chain of `consider`
(`candidate.type ?? candidate.option_type ?? candidate.class`). -/
def candidateTypeField (fields : List (String × Json)) : Option Json :=
  jGetCoalesce (.obj fields) ["type", "option_type", "class"]

/-- The contract a `consider` call would extract from an object node
(everything except the dedup check and the push; the quote extraction is
pure, so computing it here is unobservable).  `Date.UTC` coerces each
component with truncation; the derived year is always `20xx`, so the
0–99 → 1900+ quirk of `Date.UTC` is unreachable.  An out-of-range
millisecond value makes `toISOString` throw a `RangeError`, which the
source does not catch. -/
def considerEval (fields : List (String × Json)) : Except String (Option NormalizedContract) :=
  match candidateSymbol fields with
  | none => .ok none
  | some symbol =>
    if symbol = "" then .ok none
    else if optionTypeFromSymbolOrField (some symbol) (candidateTypeField fields) ≠ some .call then
      .ok none
    else
      match toFiniteNumber (jGet (.obj fields) "strike_price") <|>
          toFiniteNumber (jGet (.obj fields) "strike") <|>
          toFiniteNumber (jGet (.obj fields) "strikePrice") <|>
          toFiniteNumber (jGet (.obj fields) "strike_price_value") with
      | none => .ok none
      | some strike =>
        let expirationRaw := jGetCoalesce (.obj fields)
          ["expiration_date", "expiration", "expiry", "expirationDate", "exp_date",
            "option_expiration"]
        let step1 : Except String (Option String) :=
          match expirationRaw with
          | some (.str s) => if jsTrim s ≠ "" then .ok (some (jsTrim s)) else .ok none
          | some (.num q) =>
            if q ≠ 0 then
              match jsToISOString (ratTrunc (if 10000000000 < q then q else q * 1000)) with
              | some iso => .ok (some iso)
              | none => .error "Invalid time value"
            else .ok none
          | _ => .ok none
        match step1 with
        | .error e => .error e
        | .ok exp1 =>
          let step2 : Except String (Option String) :=
            match exp1 with
            | some e => .ok (some e)
            | none =>
              let sanitized := sanitizeOptionSymbol symbol
              if 15 ≤ sanitized.toList.length then
                match jsStringToNumber ("20" ++ jsSlice sanitized (-15) (-13)),
                    jsStringToNumber (jsSlice sanitized (-13) (-11)),
                    jsStringToNumber (jsSlice sanitized (-11) (-9)) with
                | some year, some month, some day =>
                  if 1 ≤ month ∧ month ≤ 12 ∧ 1 ≤ day ∧ day ≤ 31 then
                    match jsToISOString
                        (daysFromCivil (ratTrunc year) (ratTrunc (month - 1) + 1)
                          (ratTrunc day) * 86400000) with
                    | some iso => .ok (some iso)
                    | none => .error "Invalid time value"
                  else .ok none
                | _, _, _ => .ok none
              else .ok none
          match step2 with
          | .error e => .error e
          | .ok none => .ok none
          | .ok (some expiration) =>
            let isoStep : Except String String :=
              if expiration.toList.contains 'T' then .ok (jsSlice expiration 0 10)
              else normalizeExpirationInput expiration
            match isoStep with
            | .error e => .error e
            | .ok expirationIso =>
              .ok (some
                { symbol := sanitizeOptionSymbol symbol
                  strike := strike
                  expiration := expirationIso
                  quote := normalizeQuote (.obj fields) })

/-- `consider` from `gatherContractsFromResponse`: evaluate the node,
dedup by the composite key, push. -/
def consider (st : GatherState) (fields : List (String × Json)) : Except String GatherState :=
  match considerEval fields with
  | .error e => .error e
  | .ok none => .ok st
  | .ok (some c) =>
    let key := (c.symbol, c.expiration, c.strike)
    if key ∈ st.seen then .ok st
    else .ok { results := st.results ++ [c], seen := st.seen ++ [key] }

/-- The traversal heuristic: a symbol-like key AND a strike-like key AND a
price-like key. -/
def isContractLikeNode (fields : List (String × Json)) : Bool :=
  (hasKey (.obj fields) "symbol" || hasKey (.obj fields) "occ_symbol" ||
    hasKey (.obj fields) "option_symbol") &&
  (hasKey (.obj fields) "strike" || hasKey (.obj fields) "strike_price" ||
    hasKey (.obj fields) "strikePrice") &&
  (hasKey (.obj fields) "ask" || hasKey (.obj fields) "bid" ||
    hasKey (.obj fields) "ask_price" || hasKey (.obj fields) "bid_price")

mutual

/-- The `traverse` closure of `gatherContractsFromResponse`: primitives are
skipped, arrays are traversed element-wise, object nodes are considered
when contract-like and their object/array children traversed in key
order. -/
def traverseJson (st : GatherState) : Json → Except String GatherState
  | .arr items => traverseItems st items
  | .obj fields =>
    match (if isContractLikeNode fields then consider st fields else .ok st :
        Except String GatherState) with
    | .error e => .error e
    | .ok st2 => traverseFields st2 fields
  | _ => .ok st

def traverseItems (st : GatherState) : List Json → Except String GatherState
  | [] => .ok st
  | v :: rest =>
    match traverseJson st v with
    | .error e => .error e
    | .ok st2 => traverseItems st2 rest

def traverseFields (st : GatherState) : List (String × Json) → Except String GatherState
  | [] => .ok st
  | (_, v) :: rest =>
    match v with
    | .arr _ | .obj _ =>
      match traverseJson st v with
      | .error e => .error e
      | .ok st2 => traverseFields st2 rest
    | _ => traverseFields st rest

end

/-- `gatherContractsFromResponse` from `options.ts`. -/
def gatherContractsFromResponse (payload : Json) : Except String (List NormalizedContract) :=
  match traverseJson { results := [], seen := [] } payload with
  | .error e => .error e
  | .ok st => .ok st.results

mutual

/-- All object nodes the traversal can reach in a JSON tree. -/
def objNodes : Json → List (List (String × Json))
  | .arr items => objNodesItems items
  | .obj fields => fields :: objNodesFields fields
  | _ => []

def objNodesItems : List Json → List (List (String × Json))
  | [] => []
  | v :: rest => objNodes v ++ objNodesItems rest

def objNodesFields : List (String × Json) → List (List (String × Json))
  | [] => []
  | (_, v) :: rest =>
    (match v with
     | .arr _ | .obj _ => objNodes v
     | _ => []) ++ objNodesFields rest

end

/-! ## `pickBestMatch` -/

structure Bucket where
  long : Option NormalizedContract
  short : Option NormalizedContract
deriving DecidableEq

structure ChainMatch where
  expiration : String
  long : NormalizedContract
  short : NormalizedContract
deriving DecidableEq

/-- `Map.set`: replace the existing binding in place, else append. -/
def bucketsSet : List (String × Bucket) → String → Bucket → List (String × Bucket)
  | [], k, b => [(k, b)]
  | (k2, b2) :: rest, k, b =>
    if k2 = k then (k, b) :: rest else (k2, b2) :: bucketsSet rest k b

/-- One iteration of the bucketing loop of `pickBestMatch` (without the
explicit-expiration filter). -/
def bucketStep (longStrike shortStrike : ℚ) (c : NormalizedContract)
    (bs : List (String × Bucket)) : List (String × Bucket) :=
  if approxEqual c.strike longStrike STRIKE_EPSILON then
    let bucket := (bs.lookup c.expiration).getD { long := none, short := none }
    bucketsSet bs c.expiration { bucket with long := some c }
  else if approxEqual c.strike shortStrike STRIKE_EPSILON then
    let bucket := (bs.lookup c.expiration).getD { long := none, short := none }
    bucketsSet bs c.expiration { bucket with short := some c }
  else bs

/-- The bucketing loop of `pickBestMatch`.  With an explicit expiration the
source normalizes each contract's expiration (which can throw) and skips
mismatches; an empty explicit expiration is falsy in JS, disabling the
filter. -/
def fillBuckets (explicitExpiration : Option String) (longStrike shortStrike : ℚ) :
    List NormalizedContract → List (String × Bucket) → Except String (List (String × Bucket))
  | [], bs => .ok bs
  | c :: rest, bs =>
    match explicitExpiration with
    | some e =>
      if e = "" then
        fillBuckets explicitExpiration longStrike shortStrike rest
          (bucketStep longStrike shortStrike c bs)
      else
        match normalizeExpirationInput c.expiration with
        | .error m => .error m
        | .ok ne =>
          if ne ≠ e then fillBuckets explicitExpiration longStrike shortStrike rest bs
          else
            fillBuckets explicitExpiration longStrike shortStrike rest
              (bucketStep longStrike shortStrike c bs)
    | none =>
      fillBuckets explicitExpiration longStrike shortStrike rest
        (bucketStep longStrike shortStrike c bs)

/-- The numeric sort key `Date.parse(expiration)`.  An unparsable
expiration gives NaN, which the JS comparator coerces to "equal"; the
comparator's behaviour is then implementation-defined, and the embedding
models the NaN key deterministically as epoch 0. -/
def expirationSortMs (s : String) : ℤ :=
  (dateParseMs s).getD 0

/-- The comparator `(a, b) => Date.parse(a.expiration) - Date.parse(b.expiration)`
as a sorting relation. -/
def chainMatchLe (a b : ChainMatch) : Bool :=
  decide (expirationSortMs a.expiration ≤ expirationSortMs b.expiration)

/-- `pickBestMatch` from `options.ts`: bucket by expiration, keep buckets
with both slots filled, return the chronologically first candidate
(`candidates[0]` of the sorted array, i.e. the head, `none` when no
bucket qualifies). -/
def pickBestMatch (contracts : List NormalizedContract) (longStrike shortStrike : ℚ)
    (explicitExpiration : Option String) : Except String (Option ChainMatch) :=
  match fillBuckets explicitExpiration longStrike shortStrike contracts [] with
  | .error e => .error e
  | .ok buckets =>
    let candidates := buckets.filterMap fun eb =>
      match eb.2.long, eb.2.short with
      | some l, some s => some { expiration := eb.1, long := l, short := s }
      | _, _ => none
    .ok (candidates.mergeSort chainMatchLe).head?

/-! ## Pagination

Network effects are modelled by an oracle giving the response to the
`i`-th `fetchJson` call (`Except.error` = request failure); each function
threads the index of the next call, so the final index minus the initial
one is the number of requests issued. -/

/-- Response oracle: an arbitrary sequence of upstream responses. -/
def NetOracle : Type :=
  Nat → Except Unit Json

/-- Continuation-token extraction of the `options.ts` pagination loop:
`payload?.next_page_token ?? payload?.nextPageToken`, kept when a
non-blank string. -/
def extractNextToken (payload : Json) : Option String :=
  match jGetCoalesce payload ["next_page_token", "nextPageToken"] with
  | some (.str s) => if jsTrim s ≠ "" then some s else none
  | _ => none

/-- Continuation-token extraction of the `longCall.ts` variant (only
`next_page_token`). -/
def extractNextTokenLC (payload : Json) : Option String :=
  match jGet payload "next_page_token" with
  | some (.str s) => if jsTrim s ≠ "" then some s else none
  | _ => none

/-- The per-endpoint pagination loop of `fetchContractsFromChain` in
`options.ts` (`for (let page = 0; page < 4; page++)`), instrumented with
the list of `page_token` parameters sent with each issued request.  A
request failure or a `gatherContractsFromResponse` throw is caught by the
`try`/`catch` and breaks the loop, keeping the contracts collected so
far.  Returns (collected contracts, next oracle index, request log). -/
def chainPaginate (net : NetOracle) (n : Nat) :
    Nat → Option String → List NormalizedContract →
      List NormalizedContract × Nat × List (Option String)
  | 0, _, acc => (acc, n, [])
  | pagesLeft + 1, tok, acc =>
    match net n with
    | .error _ => (acc, n + 1, [tok])
    | .ok payload =>
      match gatherContractsFromResponse payload with
      | .error _ => (acc, n + 1, [tok])
      | .ok cs =>
        match extractNextToken payload with
        | none => (acc ++ cs, n + 1, [tok])
        | some t =>
          let r := chainPaginate net (n + 1) pagesLeft (some t) (acc ++ cs)
          (r.1, r.2.1, tok :: r.2.2)

/-- The body of `fetchContractsFromChain` (`options.ts`) after expiration
normalization: paginate endpoint variant 0, pick, else endpoint variant
1, pick. -/
def fetchContractsFromChainResolved (net : NetOracle) (n : Nat)
    (longStrike shortStrike : ℚ) (normalizedExpiration : Option String) :
    Except String (Option ChainMatch) × Nat :=
  let r1 := chainPaginate net n 4 none []
  match pickBestMatch r1.1 longStrike shortStrike normalizedExpiration with
  | .error e => (.error e, r1.2.1)
  | .ok (some m) => (.ok (some m), r1.2.1)
  | .ok none =>
    let r2 := chainPaginate net r1.2.1 4 none []
    match pickBestMatch r2.1 longStrike shortStrike normalizedExpiration with
    | .error e => (.error e, r2.2.1)
    | .ok res => (.ok res, r2.2.1)

/-- `fetchContractsFromChain` from `options.ts`.  The `symbol` parameter
only shapes the request URL, which the oracle abstracts over. -/
def fetchContractsFromChain (net : NetOracle) (n : Nat) (symbol : String)
    (longStrike shortStrike : ℚ) (expiration : Option String) :
    Except String (Option ChainMatch) × Nat :=
  let _ := symbol
  match expiration with
  | some e =>
    if e = "" then fetchContractsFromChainResolved net n longStrike shortStrike none
    else
      match normalizeExpirationInput e with
      | .error m => (.error m, n)
      | .ok ne => fetchContractsFromChainResolved net n longStrike shortStrike (some ne)
  | none => fetchContractsFromChainResolved net n longStrike shortStrike none

/-- The per-endpoint pagination loop of `fetchContractsFromChain` in
`src/src/core/benchmarks/longCall.ts`: a `do { … } while (pageToken)`
loop with NO page cap, whose `try` wraps the whole loop, so a failure
discards the endpoint (`none`).  The JS loop is unbounded; `fuel` bounds
only the modelled iterations — whenever the response sequence stops
yielding continuation tokens (or fails) within `fuel` requests, the
model's request log and result are exactly the JS loop's. -/
def chainPaginateLC (net : NetOracle) (n : Nat) :
    Nat → Option String → List NormalizedContract →
      Option (List NormalizedContract) × Nat × List (Option String)
  | 0, _, _ => (none, n, [])
  | fuel + 1, tok, acc =>
    match net n with
    | .error _ => (none, n + 1, [tok])
    | .ok payload =>
      match gatherContractsFromResponse payload with
      | .error _ => (none, n + 1, [tok])
      | .ok cs =>
        match extractNextTokenLC payload with
        | none => (some (acc ++ cs), n + 1, [tok])
        | some t =>
          let r := chainPaginateLC net (n + 1) fuel (some t) (acc ++ cs)
          (r.1, r.2.1, tok :: r.2.2)

/-- One endpoint attempt of the `longCall.ts` `fetchContractsFromChain`:
`none` means "continue to the next endpoint variant" (loop aborted by
`catch`, or no match found). -/
def chainEndpointTryLC (net : NetOracle) (n : Nat) (fuel : Nat)
    (longStrike shortStrike : ℚ) (normalizedExpiration : Option String) :
    Option (Except String (Option ChainMatch)) × Nat :=
  let r := chainPaginateLC net n fuel none []
  match r.1 with
  | none => (none, r.2.1)
  | some collected =>
    match pickBestMatch collected longStrike shortStrike normalizedExpiration with
    | .error e => (some (.error e), r.2.1)
    | .ok (some m) => (some (.ok (some m)), r.2.1)
    | .ok none => (none, r.2.1)

/-- `fetchContractsFromChain` from `longCall.ts` (two endpoint variants,
uncapped pagination per endpoint). -/
def fetchContractsFromChainLC (net : NetOracle) (n : Nat) (fuel : Nat) (symbol : String)
    (longStrike shortStrike : ℚ) (expiration : Option String) :
    Except String (Option ChainMatch) × Nat :=
  let _ := symbol
  let go : Option String → Except String (Option ChainMatch) × Nat := fun ne =>
    match chainEndpointTryLC net n fuel longStrike shortStrike ne with
    | (some r, n2) => (r, n2)
    | (none, n2) =>
      match chainEndpointTryLC net n2 fuel longStrike shortStrike ne with
      | (some r, n3) => (r, n3)
      | (none, n3) => (.ok none, n3)
  match expiration with
  | some e =>
    if e = "" then go none
    else
      match normalizeExpirationInput e with
      | .error m => (.error m, n)
      | .ok ne => go (some ne)
  | none => go none

/-! ## `fetchLatestQuotes` and `fetchSpreadMidDebit` (`options.ts`) -/

/-- Plain-object property write `accumulated[k] = v` (replace in place or
append). -/
def assocSet : List (String × NormalizedQuote) → String → NormalizedQuote →
    List (String × NormalizedQuote)
  | [], k, v => [(k, v)]
  | (k2, v2) :: rest, k, v =>
    if k2 = k then (k, v) :: rest else (k2, v2) :: assocSet rest k v

/-- One entry of an array-shaped `quotes` node in `fetchLatestQuotes`. -/
def processQuoteEntry (acc : List (String × NormalizedQuote)) (entry : Json) :
    List (String × NormalizedQuote) :=
  match entry with
  | .arr _ | .obj _ =>
    match (match jGetCoalesce entry
          ["symbol", "option_symbol", "occ_symbol", "contract_symbol"] with
      | some (.str s) => some (sanitizeOptionSymbol s)
      | _ => none) with
    | none => acc
    | some symbol =>
      match normalizeQuote entry with
      | some q => assocSet acc symbol q
      | none => acc
  | _ => acc

/-- Processing of one endpoint's payload in `fetchLatestQuotes`:
`quotes ?? data ?? results`, then array entries or object entries. -/
def processQuotesPayload (acc : List (String × NormalizedQuote)) (payload : Json) :
    List (String × NormalizedQuote) :=
  match payload with
  | .arr _ | .obj _ =>
    match jGetCoalesce payload ["quotes", "data", "results"] with
    | some (.arr entries) => entries.foldl processQuoteEntry acc
    | some (.obj fields) =>
      fields.foldl
        (fun a kv =>
          if kv.1 = "" then a
          else
            match normalizeQuote kv.2 with
            | some q => assocSet a (sanitizeOptionSymbol kv.1) q
            | none => a)
        acc
    | _ => acc
  | _ => acc

/-- `fetchLatestQuotes` from `options.ts`: up to two endpoint variants, a
single request each (a failed request is skipped), stopping after the
first endpoint when every requested symbol already has a quote. -/
def fetchLatestQuotes (net : NetOracle) (n : Nat) (symbols : List String) :
    List (String × NormalizedQuote) × Nat :=
  let uniqueSymbols := (symbols.map sanitizeOptionSymbol).eraseDups
  let r1 :=
    match net n with
    | .error _ => (([] : List (String × NormalizedQuote)), n + 1)
    | .ok payload => (processQuotesPayload [] payload, n + 1)
  if uniqueSymbols.all (fun s => (r1.1.lookup s).isSome) then r1
  else
    match net r1.2 with
    | .error _ => (r1.1, r1.2 + 1)
    | .ok payload => (processQuotesPayload r1.1 payload, r1.2 + 1)

/-- A JS number at the API boundary: NaN, an infinity, or a finite value. -/
inductive JSNum where
  | nan
  | posInf
  | negInf
  | val (q : ℚ)
deriving DecidableEq

def JSNum.isFinite : JSNum → Bool
  | .val _ => true
  | _ => false

/-- The rational value of a finite `JSNum` (never applied to non-finite
inputs: every use is behind an `isFinite` validation). -/
def JSNum.toRat : JSNum → ℚ
  | .val q => q
  | _ => 0

structure FetchSpreadDebitParams where
  symbol : String
  longStrike : JSNum
  shortStrike : JSNum
  expiration : Option String

structure FetchSpreadDebitResult where
  netDebitPerShare : ℚ
  longMid : ℚ
  shortMid : ℚ
  expiration : ℤ
deriving DecidableEq

/-- Number-to-string in error-message interpolations.  JS decimal
formatting of a double is not modelled; this affects only message
text, never control flow. -/
def ratStr (q : ℚ) : String :=
  toString q

/-- Contract-resolution stage of `fetchSpreadMidDebit`: fast path via OCC
symbols and a batched quote lookup when an expiration is given, falling
back to the chain resolver.  Produces the long contract, short contract
and resolved expiration. -/
def resolveSpreadContracts (net : NetOracle) (n : Nat) (symbol : String)
    (longStrike shortStrike : ℚ) (normalizedExpiration : Option String) :
    Except String (NormalizedContract × NormalizedContract × String) × Nat :=
  match normalizedExpiration with
  | some ne =>
    match buildOccOptionSymbol symbol ne longStrike .C with
    | .error e => (.error e, n)
    | .ok longSymbol =>
      match buildOccOptionSymbol symbol ne shortStrike .C with
      | .error e => (.error e, n)
      | .ok shortSymbol =>
        let fq := fetchLatestQuotes net n [longSymbol, shortSymbol]
        match fq.1.lookup (sanitizeOptionSymbol longSymbol),
            fq.1.lookup (sanitizeOptionSymbol shortSymbol) with
        | some longQuote, some shortQuote =>
          (.ok
            ({ symbol := sanitizeOptionSymbol longSymbol, strike := longStrike,
                expiration := ne, quote := some longQuote },
              { symbol := sanitizeOptionSymbol shortSymbol, strike := shortStrike,
                expiration := ne, quote := some shortQuote }, ne), fq.2)
        | _, _ =>
          match fetchContractsFromChain net fq.2 symbol longStrike shortStrike (some ne) with
          | (.error e, n2) => (.error e, n2)
          | (.ok none, n2) =>
            (.error (s!"Unable to locate both strikes {ratStr longStrike}/{ratStr shortStrike} for {symbol} at expiration {ne} via Alpaca."), n2)
          | (.ok (some m), n2) => (.ok (m.long, m.short, m.expiration), n2)
  | none =>
    match fetchContractsFromChain net n symbol longStrike shortStrike none with
    | (.error e, n2) => (.error e, n2)
    | (.ok none, n2) =>
      (.error (s!"Unable to locate both strikes {ratStr longStrike}/{ratStr shortStrike} for {symbol} via Alpaca. Try providing --expiry (YYYY-MM-DD)."), n2)
    | (.ok (some m), n2) => (.ok (m.long, m.short, m.expiration), n2)

/-- Quote-completion and mid-computation stage of `fetchSpreadMidDebit`.
The source's `!longContract || !shortContract` parts of the guard are
unrepresentable here (both are always present); the `!resolvedExpiration`
part (empty string) is kept. -/
def completeSpread (net : NetOracle) (n : Nat) (symbol : String)
    (longStrike shortStrike : ℚ)
    (resolved : NormalizedContract × NormalizedContract × String) :
    Except String FetchSpreadDebitResult × Nat :=
  let longContract := resolved.1
  let shortContract := resolved.2.1
  let resolvedExpiration := resolved.2.2
  if resolvedExpiration = "" then (.error (s!"Failed to resolve contracts for {symbol}."), n)
  else
    let missingSymbols :=
      (if longContract.quote.isNone then [longContract.symbol] else []) ++
        (if shortContract.quote.isNone then [shortContract.symbol] else [])
    let step :=
      if missingSymbols.isEmpty then ((longContract, shortContract), n)
      else
        let fq := fetchLatestQuotes net n missingSymbols
        ((match longContract.quote, fq.1.lookup longContract.symbol with
          | none, some q => { longContract with quote := some q }
          | _, _ => longContract,
          match shortContract.quote, fq.1.lookup shortContract.symbol with
          | none, some q => { shortContract with quote := some q }
          | _, _ => shortContract), fq.2)
    let longContract2 := step.1.1
    let shortContract2 := step.1.2
    let n2 := step.2
    match longContract2.quote with
    | none =>
      (.error (s!"Missing quote data for long strike {ratStr longStrike} ({longContract2.symbol})."), n2)
    | some lq =>
      match shortContract2.quote with
      | none =>
        (.error (s!"Missing quote data for short strike {ratStr shortStrike} ({shortContract2.symbol})."), n2)
      | some sq =>
        match computeMidFromQuote lq (symbol ++ " " ++ longContract2.symbol) with
        | .error e => (.error e, n2)
        | .ok longMid =>
          match computeMidFromQuote sq (symbol ++ " " ++ shortContract2.symbol) with
          | .error e => (.error e, n2)
          | .ok shortMid =>
            match expirationToUnixSeconds resolvedExpiration with
            | .error e => (.error e, n2)
            | .ok expirationSeconds =>
              (.ok
                { netDebitPerShare := longMid - shortMid, longMid := longMid,
                  shortMid := shortMid, expiration := expirationSeconds }, n2)

/-- `fetchSpreadMidDebit` from `options.ts`: input validation (before any
request), expiration normalization, contract resolution, quote
completion, mid computation. -/
def fetchSpreadMidDebit (net : NetOracle) (n : Nat) (params : FetchSpreadDebitParams) :
    Except String FetchSpreadDebitResult × Nat :=
  if jsTrim params.symbol = "" then (.error "Symbol is required for Alpaca lookup.", n)
  else if ¬ (params.longStrike.isFinite && params.shortStrike.isFinite) then
    (.error "Both longStrike and shortStrike must be finite numbers.", n)
  else
    let longStrike := params.longStrike.toRat
    let shortStrike := params.shortStrike.toRat
    let symbol := jsToUpper (jsTrim params.symbol)
    let normStep : Except String (Option String) :=
      match params.expiration with
      | some e => if e = "" then .ok none else (normalizeExpirationInput e).map some
      | none => .ok none
    match normStep with
    | .error e => (.error e, n)
    | .ok normalizedExpiration =>
      match resolveSpreadContracts net n symbol longStrike shortStrike normalizedExpiration with
      | (.error e, n2) => (.error e, n2)
      | (.ok resolved, n2) =>
        completeSpread net n2 symbol longStrike shortStrike resolved

/-- Concrete payload for exercising `gatherContractsFromResponse`: one
call and one put snapshot. -/
def c10Payload : Json :=
  .obj [("snapshots", .arr [
    .obj [("symbol", .str "TSLA240920C00250500"), ("strike_price", .num 250),
      ("expiration_date", .str "2024-09-20"), ("type", .str "call"), ("ask", .num 1)],
    .obj [("symbol", .str "TSLA240920P00250500"), ("strike_price", .num 250),
      ("expiration_date", .str "2024-09-20"), ("type", .str "put"), ("ask", .num 1)]])]

def c10Contract : NormalizedContract :=
  { symbol := "TSLA240920C00250500", strike := 250, expiration := "2024-09-20",
    quote := some { ask := some 1, bid := none, last := none, mid := none } }

/-- Concrete contract list with two expirations, each carrying both
strikes. -/
def c5Contracts : List NormalizedContract :=
  [{ symbol := "L2", strike := 100, expiration := "2024-10-18", quote := none },
   { symbol := "S2", strike := 110, expiration := "2024-10-18", quote := none },
   { symbol := "L1", strike := 100, expiration := "2024-09-20", quote := none },
   { symbol := "S1", strike := 110, expiration := "2024-09-20", quote := none }]

/-- Oracle with continuation tokens on the first two pages. -/
def c8Net : NetOracle := fun i =>
  if i < 2 then .ok (.obj [("next_page_token", .str "t")]) else .ok (.obj [])

def c8NetLC : NetOracle := fun i =>
  if i < 5 then .ok (.obj [("next_page_token", .str "t")]) else .ok (.obj [])

/-! ## Payoff-engine lemmas -/

/-- Shared helper: `resolveContracts` with an explicit contract count
returns it unchanged. -/
theorem resolveContracts_explicit (c p : Option ℚ) (d cs : ℚ)
    (hcs : jsIsInteger cs ∧ 0 < cs) (hd : 0 ≤ d) (n : ℚ) (hc : c = some n)
    (hn : jsIsInteger n ∧ 0 < n) :
    resolveContracts ⟨c, p, d, cs⟩ = .ok n := by
  subst hc
  simp [resolveContracts, hcs.1, hcs.2, not_lt.mpr hd, hn.1, hn.2,
    not_le.mpr hcs.2, not_le.mpr hn.2]

/-- Shared helper: closed form of `bullCallSpreadProfit` with an explicit
contract count. -/
theorem bullCallSpreadProfit_formula (K1 K2 p d cs n : ℚ) (pf : Option ℚ)
    (hK : K1 < K2) (hd : 0 ≤ d) (hcs : jsIsInteger cs ∧ 0 < cs)
    (hn : jsIsInteger n ∧ 0 < n) :
    bullCallSpreadProfit ⟨K1, K2, p, d, some cs, some n, pf⟩ =
      .ok ((max 0 (min (p - K1) (K2 - K1)) - d) * cs * n) := by
  simp [bullCallSpreadProfit, not_le.mpr hK, not_lt.mpr hd, hcs.1,
    not_le.mpr hcs.2, resolveContracts_explicit (some n) pf d cs hcs hd n rfl hn]

/-- Shared helper: full characterization of `resolveContracts` under the
contract-size and debit validations. -/
theorem resolveContracts_characterization (c p : Option ℚ) (d cs : ℚ)
    (hcs : jsIsInteger cs ∧ 0 < cs) (hd : 0 ≤ d) :
    resolveContracts ⟨c, p, d, cs⟩ =
      match c with
      | some n =>
        if jsIsInteger n ∧ 0 < n then .ok n
        else .error "contracts must be a positive integer."
      | none =>
        let pv := p.getD 100000
        if 0 < pv then
          if d * cs ≤ 0 then .ok 1
          else if 0 < ⌊pv / (d * cs)⌋ then .ok ((⌊pv / (d * cs)⌋ : ℤ) : ℚ)
          else .error "Portfolio size too small to fund a single contract at this debit."
        else .error "portfolioSize must be a positive finite number." := by
  cases c with
  | some n =>
    by_cases hn : jsIsInteger n ∧ 0 < n
    · simp [resolveContracts_explicit (some n) p d cs hcs hd n rfl hn, hn]
    · have hn2 : ¬ jsIsInteger n ∨ n ≤ 0 := by
        rcases not_and_or.mp hn with h | h
        · exact Or.inl h
        · exact Or.inr (not_lt.mp h)
      simp [resolveContracts, hcs.1, not_le.mpr hcs.2, not_lt.mpr hd, hn, hn2]
  | none =>
    simp only [resolveContracts, portfolioSize, hcs.1, not_le.mpr hcs.2, not_lt.mpr hd]
    norm_num
    by_cases hp : 0 < (p.getD 100000 : ℚ)
    · simp [hp, not_le.mpr hp]
      by_cases hcost : d * cs ≤ 0
      · simp [hcost]
      · simp [hcost]
        by_cases hfl : 0 < ⌊(p.getD 100000 : ℚ) / (d * cs)⌋
        · simp [hfl, not_le.mpr hfl]
        · simp [hfl, not_lt.mp hfl]
    · simp [hp, not_lt.mp hp]

/-- C1: for finite inputs with `longStrike < shortStrike`,
`netDebitPerShare ≥ 0`, a positive integer contract size and an explicit
positive integer contract count, `bullCallSpreadProfit` returns
`(max(0, min(priceAtExpiry - longStrike, shortStrike - longStrike)) -
netDebitPerShare) * contractSize * contracts`. -/
theorem C1_bullCallSpreadProfit_formula (K1 K2 p d cs n : ℚ) (pf : Option ℚ)
    (hK : K1 < K2) (hd : 0 ≤ d) (hcs : jsIsInteger cs ∧ 0 < cs)
    (hn : jsIsInteger n ∧ 0 < n) :
    bullCallSpreadProfit ⟨K1, K2, p, d, some cs, some n, pf⟩ =
      .ok ((max 0 (min (p - K1) (K2 - K1)) - d) * cs * n) :=
  bullCallSpreadProfit_formula K1 K2 p d cs n pf hK hd hcs hn

/-- C1 witness: the claim's end-to-end scenario (strikes 100/110, debit 3,
contract size 100, 1 contract) returns 200 at 105, −300 at 90, 700 at
115. -/
theorem C1_bullCallSpreadProfit_formula_witness :
    bullCallSpreadProfit ⟨100, 110, 105, 3, some 100, some 1, none⟩ = .ok 200 ∧
    bullCallSpreadProfit ⟨100, 110, 90, 3, some 100, some 1, none⟩ = .ok (-300) ∧
    bullCallSpreadProfit ⟨100, 110, 115, 3, some 100, some 1, none⟩ = .ok 700 := by
  refine ⟨?_, ?_, ?_⟩ <;>
    rw [C1_bullCallSpreadProfit_formula _ _ _ _ _ _ _ (by norm_num) (by norm_num)
      ⟨by norm_num [jsIsInteger], by norm_num⟩ ⟨by norm_num [jsIsInteger], by norm_num⟩] <;>
    norm_num

/-- C2 (amended): when additionally the debit does not exceed the spread
width, `bullCallSpreadProfit` at the breakeven price returned by
`bullCallSpreadBreakeven` is exactly 0. -/
theorem C2_profit_at_breakeven (K1 K2 d cs n : ℚ)
    (hK : K1 < K2) (hd : 0 ≤ d) (hw : d ≤ K2 - K1)
    (hcs : jsIsInteger cs ∧ 0 < cs) (hn : jsIsInteger n ∧ 0 < n)
    (be : ℚ) (hbe : bullCallSpreadBreakeven ⟨K1, d⟩ = .ok be) :
    bullCallSpreadProfit ⟨K1, K2, be, d, some cs, some n, none⟩ = .ok 0 := by
  have hbe2 : be = K1 + d := by
    simpa [bullCallSpreadBreakeven, not_lt.mpr hd] using hbe.symm
  subst hbe2
  rw [bullCallSpreadProfit_formula K1 K2 (K1 + d) d cs n none hK hd hcs hn]
  have h2 : max 0 (min (K1 + d - K1) (K2 - K1)) - d = 0 := by
    rw [show K1 + d - K1 = d by ring, min_eq_left (by linarith),
      max_eq_right (by linarith)]
    ring
  rw [h2, zero_mul, zero_mul]

/-- C2 witness: strikes 100/110, debit 3 — breakeven 103, profit 0
there. -/
theorem C2_profit_at_breakeven_witness :
    bullCallSpreadBreakeven ⟨100, 3⟩ = .ok 103 ∧
    bullCallSpreadProfit ⟨100, 110, 103, 3, some 100, some 1, none⟩ = .ok 0 := by
  have h1 : bullCallSpreadBreakeven ⟨100, 3⟩ = .ok 103 := by
    norm_num [bullCallSpreadBreakeven]
  exact ⟨h1, C2_profit_at_breakeven 100 110 3 100 1 (by norm_num) (by norm_num)
    (by norm_num) ⟨by norm_num [jsIsInteger], by norm_num⟩
    ⟨by norm_num [jsIsInteger], by norm_num⟩ 103 h1⟩

/-- C2 counterexample: with debit 5 wider than the 100/101 spread,
breakeven is reported as 105 but the profit there is −400, not 0 — the
claim's "for any longStrike/debit combination with debit ≥ 0" fails. -/
theorem C2_counterexample :
    bullCallSpreadBreakeven ⟨100, 5⟩ = .ok 105 ∧
    bullCallSpreadProfit ⟨100, 101, 105, 5, some 100, some 1, none⟩ = .ok (-400) ∧
    (Except.ok (-400 : ℚ) : Except String ℚ) ≠ .ok 0 := by
  refine ⟨by norm_num [bullCallSpreadBreakeven], ?_, by simp⟩
  rw [bullCallSpreadProfit_formula 100 101 105 5 100 1 none (by norm_num) (by norm_num)
    ⟨by norm_num [jsIsInteger], by norm_num⟩ ⟨by norm_num [jsIsInteger], by norm_num⟩]
  norm_num

/-- C3 (amended): with a valid contract size and non-negative debit,
`resolveContracts` returns an explicit contract count unchanged
(validated positive integer, portfolio ignored); otherwise the portfolio
size (defaulting to the constant 100000 when absent) must be positive,
and it returns `floor(portfolioSize / (netDebitPerShare × contractSize))`
when the per-contract cost is positive — failing with the "portfolio too
small" error when that floor is ≤ 0 — and 1 when the per-contract cost is
≤ 0. -/
theorem C3_resolveContracts_characterization (c p : Option ℚ) (d cs : ℚ)
    (hcs : jsIsInteger cs ∧ 0 < cs) (hd : 0 ≤ d) :
    resolveContracts ⟨c, p, d, cs⟩ =
      match c with
      | some n =>
        if jsIsInteger n ∧ 0 < n then .ok n
        else .error "contracts must be a positive integer."
      | none =>
        let pv := p.getD 100000
        if 0 < pv then
          if d * cs ≤ 0 then .ok 1
          else if 0 < ⌊pv / (d * cs)⌋ then .ok ((⌊pv / (d * cs)⌋ : ℤ) : ℚ)
          else .error "Portfolio size too small to fund a single contract at this debit."
        else .error "portfolioSize must be a positive finite number." :=
  resolveContracts_characterization c p d cs hcs hd

/-- C3 witness: explicit count returned unchanged; portfolio 100000 at
cost 300 funds 333 contracts; portfolio 100 at cost 300 is too small. -/
theorem C3_resolveContracts_characterization_witness :
    resolveContracts ⟨some 7, some 100, 3, 100⟩ = .ok 7 ∧
    resolveContracts ⟨none, some 100000, 3, 100⟩ = .ok 333 ∧
    resolveContracts ⟨none, some 100, 3, 100⟩ =
      .error "Portfolio size too small to fund a single contract at this debit." := by
  refine ⟨?_, ?_, ?_⟩ <;>
    rw [C3_resolveContracts_characterization _ _ _ _
      ⟨by norm_num [jsIsInteger], by norm_num⟩ (by norm_num)] <;>
    norm_num [jsIsInteger]

/-- C3 counterexample: with no explicit count and NO portfolio size, the
destructuring default substitutes 100000, so the result is
`floor(100000 / 300) = 333`, not the claimed 1. -/
theorem C3_counterexample :
    resolveContracts ⟨none, none, 3, 100⟩ = .ok 333 ∧
    resolveContracts ⟨none, none, 3, 100⟩ ≠ .ok 1 := by
  have h : resolveContracts ⟨none, none, 3, 100⟩ = .ok 333 := by
    rw [resolveContracts_characterization none none 3 100
      ⟨by norm_num [jsIsInteger], by norm_num⟩ (by norm_num)]
    norm_num
  exact ⟨h, by rw [h]; simp⟩

/-- C7: in the pure debit loss region `priceAtExpiry ≤ longStrike`, the
spread profit equals `bullCallSpreadMaxLossPerContract × contracts`. -/
theorem C7_maxloss_region (K1 K2 p d cs n : ℚ) (pf : Option ℚ)
    (hK : K1 < K2) (hd : 0 ≤ d) (hcs : jsIsInteger cs ∧ 0 < cs)
    (hn : jsIsInteger n ∧ 0 < n) (hp : p ≤ K1) :
    bullCallSpreadProfit ⟨K1, K2, p, d, some cs, some n, pf⟩ =
      (bullCallSpreadMaxLossPerContract ⟨d, some cs⟩).map (· * n) := by
  rw [bullCallSpreadProfit_formula K1 K2 p d cs n pf hK hd hcs hn]
  have h1 : max 0 (min (p - K1) (K2 - K1)) = 0 := by
    rw [min_eq_left (by linarith), max_eq_left (by linarith)]
  simp [bullCallSpreadMaxLossPerContract, not_lt.mpr hd, hcs.1, not_le.mpr hcs.2, h1,
    Except.map]

/-- C7 witness: strikes 100/110, debit 3, 2 contracts, price 95 — the
profit equals the −300 per-contract max loss times 2. -/
theorem C7_maxloss_region_witness :
    bullCallSpreadProfit ⟨100, 110, 95, 3, some 100, some 2, none⟩ =
      (bullCallSpreadMaxLossPerContract ⟨3, some 100⟩).map (· * 2) ∧
    bullCallSpreadProfit ⟨100, 110, 95, 3, some 100, some 2, none⟩ = .ok (-600) := by
  have h := C7_maxloss_region 100 110 95 3 100 2 none (by norm_num) (by norm_num)
    ⟨by norm_num [jsIsInteger], by norm_num⟩ ⟨by norm_num [jsIsInteger], by norm_num⟩
    (by norm_num)
  refine ⟨h, ?_⟩
  rw [h]
  norm_num [bullCallSpreadMaxLossPerContract, jsIsInteger, Except.map]

/-- C4: `computeMidFromQuote` priority — `(bid+ask)/2` when both present;
otherwise `mid`; otherwise `last`; otherwise `ask`; otherwise `bid`;
failing with the descriptive error exactly when none is available. -/
theorem C4_computeMidFromQuote (q : NormalizedQuote) (description : String) :
    (∀ b a, q.bid = some b → q.ask = some a →
      computeMidFromQuote q description = .ok ((b + a) / 2)) ∧
    ((q.bid = none ∨ q.ask = none) → ∀ m, q.mid = some m →
      computeMidFromQuote q description = .ok m) ∧
    ((q.bid = none ∨ q.ask = none) → q.mid = none → ∀ l, q.last = some l →
      computeMidFromQuote q description = .ok l) ∧
    (q.bid = none → q.mid = none → q.last = none → ∀ a, q.ask = some a →
      computeMidFromQuote q description = .ok a) ∧
    (q.ask = none → q.mid = none → q.last = none → ∀ b, q.bid = some b →
      computeMidFromQuote q description = .ok b) ∧
    (q.ask = none → q.bid = none → q.mid = none → q.last = none →
      computeMidFromQuote q description =
        .error ("No usable quote data available for " ++ description ++ ".")) := by
  obtain ⟨ask, bid, last, mid⟩ := q
  refine ⟨?_, ?_, ?_, ?_, ?_, ?_⟩ <;>
    cases ask <;> cases bid <;> cases last <;> cases mid <;>
    simp [computeMidFromQuote]

theorem C4_computeMidFromQuote_witness :
    computeMidFromQuote { ask := some 12, bid := some 10, last := none, mid := none } "q" =
      .ok 11 ∧
    computeMidFromQuote { ask := none, bid := none, last := some 9, mid := none } "q" =
      .ok 9 ∧
    computeMidFromQuote { ask := none, bid := none, last := none, mid := none } "q" =
      .error "No usable quote data available for q." := by
  refine ⟨?_, ?_, ?_⟩
  · have h := (C4_computeMidFromQuote
      { ask := some 12, bid := some 10, last := none, mid := none } "q").1 10 12 rfl rfl
    rw [h]
    norm_num
  · exact (C4_computeMidFromQuote
      { ask := none, bid := none, last := some 9, mid := none } "q").2.2.1 (Or.inl rfl) rfl 9 rfl
  · exact (C4_computeMidFromQuote
      { ask := none, bid := none, last := none, mid := none } "q").2.2.2.2.2 rfl rfl rfl rfl
/-! ## String-length lemmas for the OCC symbol format -/

theorem asString_length (l : List Char) : (l.asString).length = l.length := rfl

theorem jsPadStart_length (s : String) (n : Nat) (c : Char) :
    (jsPadStart s n c).length = max n s.length := by
  simp [jsPadStart, asString_length]
  have : s.toList.length = s.length := rfl
  omega

theorem intToString_nonneg (z : ℤ) (h : 0 ≤ z) : toString z = toString z.toNat := by
  cases z with
  | ofNat n => rfl
  | negSucc n => exact absurd h (by simp)

theorem natToString_le (k e : ℕ) (he : 0 < e) (h : k < 10 ^ e) :
    (toString k).length ≤ e :=
  Nat.repr_length k e he h

theorem toDigitsCore_pos_length (f m : ℕ) :
    1 ≤ (Nat.toDigitsCore 10 (f + 1) m []).length := by
  simp only [Nat.toDigitsCore]
  by_cases h : m / 10 = 0
  · simp [h]
  · simp only [h, if_false]
    rw [Nat.toDigitsCore_lens_eq]
    omega

theorem natToString_ge2 (k : ℕ) (h : 10 ≤ k) : 2 ≤ (toString k).length := by
  have hk : k / 10 ≠ 0 := by omega
  show 2 ≤ (Nat.repr k).length
  unfold Nat.repr Nat.toDigits
  cases k with
  | zero => omega
  | succ k2 =>
    simp only [Nat.toDigitsCore, hk, if_false, asString_length]
    split
    · simp
    · rw [Nat.toDigitsCore_lens_eq, Nat.toDigitsCore_lens_eq]
      omega

theorem jsSlice1_neg2_length (s : String) (h : 2 ≤ s.length) :
    (jsSlice1 s (-2)).length = 2 := by
  simp only [jsSlice1, jsSlice, asString_length]
  rw [List.length_take, List.length_drop]
  have hlen : s.toList.length = s.length := rfl
  norm_num
  omega

/-- C6 (amended): for an underlying that is non-empty after trimming, a
valid `YYYY-MM-DD` expiration with year in `[10, 9999]`, and a strike
whose rounded milli-units `round(strike*1000)` are a non-negative integer
below 10^8, `buildOccOptionSymbol` returns the fixed-width identifier
uppercase ticker + 2-digit year + 2-digit month + 2-digit day + type char
+ 8-digit zero-padded strike. -/
theorem C6_buildOccOptionSymbol (underlying expiration : String) (strike : ℚ)
    (type : OccType) (y m d : ℤ)
    (hu : jsToUpper (jsTrim underlying) ≠ "")
    (hp : parseYMDValid expiration = some (y, m, d))
    (hy : 10 ≤ y) (hy2 : y ≤ 9999)
    (hm : 1 ≤ m ∧ m ≤ 12) (hd : 1 ≤ d ∧ d ≤ 31)
    (hk0 : 0 ≤ ⌊strike * 1000 + 1 / 2⌋)
    (hk8 : ⌊strike * 1000 + 1 / 2⌋ < 100000000) :
    buildOccOptionSymbol underlying expiration strike type =
      .ok (jsToUpper (jsTrim underlying) ++ jsSlice1 (toString y) (-2) ++
        jsPadStart (toString m) 2 '0' ++ jsPadStart (toString d) 2 '0' ++
        occTypeStr type ++ jsPadStart (toString ⌊strike * 1000 + 1 / 2⌋) 8 '0') ∧
    (jsSlice1 (toString y) (-2)).length = 2 ∧
    (jsPadStart (toString m) 2 '0').length = 2 ∧
    (jsPadStart (toString d) 2 '0').length = 2 ∧
    (jsPadStart (toString ⌊strike * 1000 + 1 / 2⌋) 8 '0').length = 8 := by
  refine ⟨?_, ?_, ?_, ?_, ?_⟩
  · simp only [buildOccOptionSymbol, hp]
    rw [if_neg hu]
  · rw [intToString_nonneg y (by omega)]
    refine jsSlice1_neg2_length _ (natToString_ge2 y.toNat (by omega))
  · rw [jsPadStart_length, intToString_nonneg m (by omega)]
    have h2 : m.toNat < 10 ^ 2 := by simp only [pow_succ, pow_zero]; omega
    have := natToString_le m.toNat 2 (by norm_num) h2
    omega
  · rw [jsPadStart_length, intToString_nonneg d (by omega)]
    have h2 : d.toNat < 10 ^ 2 := by simp only [pow_succ, pow_zero]; omega
    have := natToString_le d.toNat 2 (by norm_num) h2
    omega
  · rw [jsPadStart_length, intToString_nonneg _ hk0]
    have h8 : (⌊strike * 1000 + 1 / 2⌋).toNat < 10 ^ 8 := by
      simp only [pow_succ, pow_zero]
      omega
    have := natToString_le _ 8 (by norm_num) h8
    omega

/-- C6 witness: the claim’s example. -/
theorem C6_buildOccOptionSymbol_witness :
    buildOccOptionSymbol "tsla" "2024-09-20" 250.5 .C = .ok "TSLA240920C00250500" := by
  have h := (C6_buildOccOptionSymbol "tsla" "2024-09-20" 250.5 .C 2024 9 20
    (by decide) (by decide) (by decide) (by decide) ⟨by decide, by decide⟩
    ⟨by decide, by decide⟩ (by norm_num) (by norm_num)).1
  rw [show (⌊(250.5 : ℚ) * 1000 + 1 / 2⌋ : ℤ) = 250500 from by norm_num] at h
  rw [h]
  decide

/-- C6 counterexample: the claim as stated fails at a whitespace-only
(non-empty) underlying, at a strike whose milli-units exceed 8 digits
(total length 21, not the fixed 19), at a year below 10 (1-digit year
field, total length 18), and at a negative strike (a `-` in the strike
field). -/
theorem C6_counterexample :
    buildOccOptionSymbol " " "2024-09-20" 250.5 .C =
      .error "Underlying symbol cannot be empty." ∧
    buildOccOptionSymbol "TSLA" "2024-09-20" 1000000 .C = .ok "TSLA240920C1000000000" ∧
    ("TSLA240920C1000000000" : String).length = 21 ∧
    buildOccOptionSymbol "TSLA" "0005-09-20" 250.5 .C = .ok "TSLA50920C00250500" ∧
    ("TSLA50920C00250500" : String).length = 18 ∧
    buildOccOptionSymbol "TSLA" "2024-09-20" (-5) .C = .ok "TSLA240920C000-5000" := by
  refine ⟨by decide, ?_, by decide, ?_, by decide, ?_⟩
  · simp only [buildOccOptionSymbol,
      show (⌊(1000000 : ℚ) * 1000 + 1 / 2⌋ : ℤ) = 1000000000 from by norm_num]
    decide
  · simp only [buildOccOptionSymbol,
      show (⌊(250.5 : ℚ) * 1000 + 1 / 2⌋ : ℤ) = 250500 from by norm_num]
    decide
  · simp only [buildOccOptionSymbol,
      show (⌊(-5 : ℚ) * 1000 + 1 / 2⌋ : ℤ) = -5000 from by norm_num]
    decide
/-! ## Chain-resolver lemmas (C10) -/

/-- Shared helper: anything `consider` adds to the results was produced by
`considerEval` on that node. -/
theorem consider_mem (st : GatherState) (fields : List (String × Json)) (st2 : GatherState)
    (h : consider st fields = .ok st2) :
    ∀ c ∈ st2.results, c ∈ st.results ∨ considerEval fields = .ok (some c) := by
  unfold consider at h
  cases hce : considerEval fields with
  | error e => rw [hce] at h; exact absurd h (by simp)
  | ok o =>
    rw [hce] at h
    cases o with
    | none =>
      obtain rfl : st = st2 := by simpa using h
      exact fun c hc => Or.inl hc
    | some c0 =>
      have h2 : (if (c0.symbol, c0.expiration, c0.strike) ∈ st.seen
            then (Except.ok st : Except String GatherState)
            else Except.ok (GatherState.mk (st.results ++ [c0])
              (st.seen ++ [(c0.symbol, c0.expiration, c0.strike)]))) = Except.ok st2 := h
      by_cases hk : (c0.symbol, c0.expiration, c0.strike) ∈ st.seen
      · rw [if_pos hk] at h2
        obtain rfl : st = st2 := by simpa using h2
        exact fun c hc => Or.inl hc
      · rw [if_neg hk] at h2
        obtain rfl : st2 = GatherState.mk (st.results ++ [c0])
            (st.seen ++ [(c0.symbol, c0.expiration, c0.strike)]) := by
          simpa using h2.symm
        intro c hc
        simp only [List.mem_append, List.mem_singleton] at hc
        rcases hc with hc | rfl
        · exact Or.inl hc
        · exact Or.inr rfl

/-- Shared helper: every contract in a traversal's final results was
already present or originates from `considerEval` succeeding on some
object node of the traversed value. -/
theorem traverse_results_origin :
    (∀ (st : GatherState) (v : Json) (st2 : GatherState), traverseJson st v = .ok st2 →
      ∀ c ∈ st2.results, c ∈ st.results ∨
        ∃ fields ∈ objNodes v, considerEval fields = .ok (some c)) ∧
    (∀ (st : GatherState) (fs : List (String × Json)) (st2 : GatherState),
      traverseFields st fs = .ok st2 →
      ∀ c ∈ st2.results, c ∈ st.results ∨
        ∃ fields ∈ objNodesFields fs, considerEval fields = .ok (some c)) ∧
    (∀ (st : GatherState) (items : List Json) (st2 : GatherState),
      traverseItems st items = .ok st2 →
      ∀ c ∈ st2.results, c ∈ st.results ∨
        ∃ fields ∈ objNodesItems items, considerEval fields = .ok (some c)) := by
  refine traverseJson.mutual_induct
    (fun st v => ∀ st2, traverseJson st v = .ok st2 →
      ∀ c ∈ st2.results, c ∈ st.results ∨
        ∃ fields ∈ objNodes v, considerEval fields = .ok (some c))
    (fun st fs => ∀ st2, traverseFields st fs = .ok st2 →
      ∀ c ∈ st2.results, c ∈ st.results ∨
        ∃ fields ∈ objNodesFields fs, considerEval fields = .ok (some c))
    (fun st items => ∀ st2, traverseItems st items = .ok st2 →
      ∀ c ∈ st2.results, c ∈ st.results ∨
        ∃ fields ∈ objNodesItems items, considerEval fields = .ok (some c))
    ?_ ?_ ?_ ?_ ?_ ?_ ?_ ?_ ?_ ?_ ?_ ?_ ?_
  · -- arrays delegate to the item traversal
    intro st items ih st2 h
    simp only [traverseJson] at h
    simp only [objNodes]
    exact ih st2 h
  · -- object whose consider step throws: the traversal returns the error
    intro st fields e heq st2 h
    simp only [traverseJson, heq] at h
    exact absurd h (by simp)
  · -- object whose consider step succeeds
    intro st fields stMid heq ih st2 h
    simp only [traverseJson, heq] at h
    intro c hc
    rcases ih st2 h c hc with hmid | ⟨f, hf, hfc⟩
    · by_cases hlike : isContractLikeNode fields
      · rw [if_pos hlike] at heq
        rcases consider_mem st fields stMid heq c hmid with hst | hev
        · exact Or.inl hst
        · exact Or.inr ⟨fields, by simp [objNodes], hev⟩
      · rw [if_neg hlike] at heq
        obtain rfl : st = stMid := by simpa using heq
        exact Or.inl hmid
    · exact Or.inr ⟨f, by simp [objNodes, hf], hfc⟩
  · -- primitive nodes are skipped
    intro t st hnarr hnobj st2 h
    cases t with
    | arr items => exact absurd rfl (hnarr items)
    | obj fields => exact absurd rfl (hnobj fields)
    | null =>
      simp only [traverseJson] at h
      obtain rfl : st = st2 := by simpa using h
      exact fun c hc => Or.inl hc
    | bool b =>
      simp only [traverseJson] at h
      obtain rfl : st = st2 := by simpa using h
      exact fun c hc => Or.inl hc
    | num q =>
      simp only [traverseJson] at h
      obtain rfl : st = st2 := by simpa using h
      exact fun c hc => Or.inl hc
    | str s =>
      simp only [traverseJson] at h
      obtain rfl : st = st2 := by simpa using h
      exact fun c hc => Or.inl hc
  · -- empty item list
    intro st st2 h
    simp only [traverseItems] at h
    obtain rfl : st = st2 := by simpa using h
    exact fun c hc => Or.inl hc
  · -- item whose traversal throws
    intro st v rest e herr ih st2 h
    simp only [traverseItems, herr] at h
    exact absurd h (by simp)
  · -- item whose traversal succeeds
    intro st v rest stMid hok ih1 ih3 st2 h
    simp only [traverseItems, hok] at h
    intro c hc
    simp only [objNodesItems]
    rcases ih3 st2 h c hc with hmid | ⟨f, hf, hfc⟩
    · rcases ih1 stMid hok c hmid with hst | ⟨f, hf, hfc⟩
      · exact Or.inl hst
      · exact Or.inr ⟨f, List.mem_append_left _ hf, hfc⟩
    · exact Or.inr ⟨f, List.mem_append_right _ hf, hfc⟩
  · -- empty field list
    intro st st2 h
    simp only [traverseFields] at h
    obtain rfl : st = st2 := by simpa using h
    exact fun c hc => Or.inl hc
  · -- array-valued field whose traversal throws
    intro st fst rest items e herr ih st2 h
    simp only [traverseFields, herr] at h
    exact absurd h (by simp)
  · -- array-valued field whose traversal succeeds
    intro st fst rest items stMid hok ih1 ih2 st2 h
    simp only [traverseFields, hok] at h
    intro c hc
    simp only [objNodesFields]
    rcases ih2 st2 h c hc with hmid | ⟨f, hf, hfc⟩
    · rcases ih1 stMid hok c hmid with hst | ⟨f, hf, hfc⟩
      · exact Or.inl hst
      · exact Or.inr ⟨f, List.mem_append_left _ hf, hfc⟩
    · exact Or.inr ⟨f, List.mem_append_right _ hf, hfc⟩
  · -- object-valued field whose traversal throws
    intro st fst rest fields e herr ih st2 h
    simp only [traverseFields, herr] at h
    exact absurd h (by simp)
  · -- object-valued field whose traversal succeeds
    intro st fst rest fields stMid hok ih1 ih2 st2 h
    simp only [traverseFields, hok] at h
    intro c hc
    simp only [objNodesFields]
    rcases ih2 st2 h c hc with hmid | ⟨f, hf, hfc⟩
    · rcases ih1 stMid hok c hmid with hst | ⟨f, hf, hfc⟩
      · exact Or.inl hst
      · exact Or.inr ⟨f, List.mem_append_left _ hf, hfc⟩
    · exact Or.inr ⟨f, List.mem_append_right _ hf, hfc⟩
  · -- primitive-valued field: skipped
    intro st fst v rest hnarr hnobj ih st2 h
    cases v with
    | arr items => exact absurd rfl (hnarr items)
    | obj fields => exact absurd rfl (hnobj fields)
    | null =>
      simp only [traverseFields] at h
      intro c hc
      simp only [objNodesFields, List.nil_append]
      exact ih st2 h c hc
    | bool b =>
      simp only [traverseFields] at h
      intro c hc
      simp only [objNodesFields, List.nil_append]
      exact ih st2 h c hc
    | num q =>
      simp only [traverseFields] at h
      intro c hc
      simp only [objNodesFields, List.nil_append]
      exact ih st2 h c hc
    | str s2 =>
      simp only [traverseFields] at h
      intro c hc
      simp only [objNodesFields, List.nil_append]
      exact ih st2 h c hc


/-- Shared helper: `considerEval` only ever yields a contract whose
resolved option type is `call`. -/
theorem considerEval_call (fields : List (String × Json)) (c : NormalizedContract)
    (h : considerEval fields = .ok (some c)) :
    optionTypeFromSymbolOrField (candidateSymbol fields) (candidateTypeField fields) =
      some .call := by
  unfold considerEval at h
  split at h
  · exact absurd h (by simp)
  · rename_i symbol hcs
    split at h
    · exact absurd h (by simp)
    · split at h
      · exact absurd h (by simp)
      · rename_i hcall
        rw [hcs]
        exact not_not.mp hcall

/-- C10: every `NormalizedContract` returned by
`gatherContractsFromResponse` comes from an object node whose option type
(resolved from the explicit type field or the symbol's embedded type
character) is `call`; puts and undetermined candidates are excluded. -/
theorem C10_gather_only_calls (payload : Json) (cs : List NormalizedContract)
    (h : gatherContractsFromResponse payload = .ok cs) :
    ∀ c ∈ cs, ∃ fields ∈ objNodes payload,
      considerEval fields = .ok (some c) ∧
      optionTypeFromSymbolOrField (candidateSymbol fields) (candidateTypeField fields) =
        some .call := by
  intro c hc
  unfold gatherContractsFromResponse at h
  cases ht : traverseJson { results := [], seen := [] } payload with
  | error e => rw [ht] at h; exact absurd h (by simp)
  | ok st =>
    rw [ht] at h
    obtain rfl : cs = st.results := by simpa using h.symm
    rcases traverse_results_origin.1 _ payload st ht c hc with h0 | ⟨f, hf, hfc⟩
    · exact absurd h0 (by simp)
    · exact ⟨f, hf, hfc, considerEval_call f c hfc⟩

/-- C10 witness: on a concrete chain payload holding one call and one put,
the single returned contract is the call. -/
theorem C10_gather_only_calls_witness :
    ∃ fields ∈ objNodes c10Payload,
      considerEval fields = .ok (some c10Contract) ∧
      optionTypeFromSymbolOrField (candidateSymbol fields) (candidateTypeField fields) =
        some .call :=
  C10_gather_only_calls c10Payload [c10Contract] (by decide) c10Contract (by simp)

/-! ## `pickBestMatch` lemmas (C5) -/

/-- Shared helper: with no explicit expiration the bucketing loop is a pure
fold. -/
theorem fillBuckets_none (longStrike shortStrike : ℚ) :
    ∀ (l : List NormalizedContract) (bs : List (String × Bucket)),
      fillBuckets none longStrike shortStrike l bs =
        .ok (l.foldl (fun b c => bucketStep longStrike shortStrike c b) bs)
  | [], bs => by simp [fillBuckets]
  | c :: rest, bs => by
    simp only [fillBuckets, List.foldl_cons]
    exact fillBuckets_none longStrike shortStrike rest _

theorem bucketsSet_lookup_self :
    ∀ (bs : List (String × Bucket)) (k : String) (b : Bucket),
      (bucketsSet bs k b).lookup k = some b
  | [], k, b => by simp [bucketsSet, List.lookup]
  | (k2, b2) :: rest, k, b => by
    by_cases h : k2 = k
    · simp [bucketsSet, h, List.lookup]
    · have hb : (k == k2) = false := beq_eq_false_iff_ne.mpr (Ne.symm h)
      simp only [bucketsSet, if_neg h, List.lookup, hb]
      exact bucketsSet_lookup_self rest k b

theorem bucketsSet_lookup_ne :
    ∀ (bs : List (String × Bucket)) (k : String) (b : Bucket) (k2 : String), k2 ≠ k →
      (bucketsSet bs k b).lookup k2 = bs.lookup k2
  | [], k, b, k2, h => by
    have hb : (k2 == k) = false := beq_eq_false_iff_ne.mpr h
    simp [bucketsSet, List.lookup, hb]
  | (k3, b3) :: rest, k, b, k2, h => by
    by_cases h3 : k3 = k
    · subst h3
      have hb : (k2 == k3) = false := beq_eq_false_iff_ne.mpr h
      simp [bucketsSet, List.lookup, hb]
    · by_cases h2 : k3 = k2
      · subst h2
        simp [bucketsSet, if_neg h3, List.lookup]
      · have hb : (k2 == k3) = false := beq_eq_false_iff_ne.mpr (Ne.symm h2)
        simp only [bucketsSet, if_neg h3, List.lookup, hb]
        exact bucketsSet_lookup_ne rest k b k2 h

theorem bucketsSet_keys_mem :
    ∀ (bs : List (String × Bucket)) (k : String) (b : Bucket) (k3 : String),
      k3 ∈ (bucketsSet bs k b).map Prod.fst ↔ k3 ∈ bs.map Prod.fst ∨ k3 = k
  | [], k, b, k3 => by simp [bucketsSet]
  | (k2, b2) :: rest, k, b, k3 => by
    by_cases h : k2 = k
    · subst h
      simp [bucketsSet]
      tauto
    · simp only [bucketsSet, if_neg h, List.map_cons, List.mem_cons]
      rw [bucketsSet_keys_mem rest k b k3]
      tauto

theorem bucketsSet_nodup :
    ∀ (bs : List (String × Bucket)) (k : String) (b : Bucket),
      (bs.map Prod.fst).Nodup → ((bucketsSet bs k b).map Prod.fst).Nodup
  | [], k, b, _ => by simp [bucketsSet]
  | (k2, b2) :: rest, k, b, h => by
    simp only [List.map_cons, List.nodup_cons] at h
    by_cases hk : k2 = k
    · subst hk
      simpa [bucketsSet, List.nodup_cons] using h
    · simp only [bucketsSet, if_neg hk, List.map_cons, List.nodup_cons]
      refine ⟨?_, bucketsSet_nodup rest k b h.2⟩
      rw [bucketsSet_keys_mem]
      rintro (hmem | rfl)
      · exact h.1 hmem
      · exact hk rfl

theorem bucketStep_nodup (longStrike shortStrike : ℚ) (c : NormalizedContract)
    (bs : List (String × Bucket)) (h : (bs.map Prod.fst).Nodup) :
    ((bucketStep longStrike shortStrike c bs).map Prod.fst).Nodup := by
  unfold bucketStep
  split
  · exact bucketsSet_nodup bs c.expiration _ h
  · split
    · exact bucketsSet_nodup bs c.expiration _ h
    · exact h

theorem fold_buckets_nodup (longStrike shortStrike : ℚ) :
    ∀ (l : List NormalizedContract) (bs : List (String × Bucket)),
      (bs.map Prod.fst).Nodup →
      ((l.foldl (fun b c => bucketStep longStrike shortStrike c b) bs).map Prod.fst).Nodup
  | [], _, h => h
  | c :: rest, bs, h =>
    fold_buckets_nodup longStrike shortStrike rest _
      (bucketStep_nodup longStrike shortStrike c bs h)

theorem lookup_of_mem_nodup :
    ∀ (bs : List (String × Bucket)) (e : String) (b : Bucket),
      (bs.map Prod.fst).Nodup → (e, b) ∈ bs → bs.lookup e = some b
  | [], e, b, _, hm => by simp at hm
  | (k2, b2) :: rest, e, b, hnd, hm => by
    simp only [List.map_cons, List.nodup_cons] at hnd
    rcases List.mem_cons.mp hm with heq | hm2
    · cases heq
      simp [List.lookup]
    · have he : k2 ≠ e := by
        rintro rfl
        exact hnd.1 (List.mem_map.mpr ⟨(k2, b), hm2, rfl⟩)
      have hb : (e == k2) = false := beq_eq_false_iff_ne.mpr (Ne.symm he)
      simp only [List.lookup, hb]
      exact lookup_of_mem_nodup rest e b hnd.2 hm2

theorem mem_of_lookup :
    ∀ (bs : List (String × Bucket)) (e : String) (b : Bucket),
      bs.lookup e = some b → (e, b) ∈ bs
  | [], e, b, h => by simp [List.lookup] at h
  | (k2, b2) :: rest, e, b, h => by
    by_cases he : k2 = e
    · subst he
      simp only [List.lookup, beq_self_eq_true] at h
      obtain rfl : b2 = b := by simpa using h
      exact List.mem_cons_self ..
    · have hb : (e == k2) = false := beq_eq_false_iff_ne.mpr (Ne.symm he)
      simp only [List.lookup, hb] at h
      exact List.mem_cons_of_mem _ (mem_of_lookup rest e b h)


theorem bucketStep_long_sound (longStrike shortStrike : ℚ) (c0 : NormalizedContract)
    (bs : List (String × Bucket)) (e : String) (b : Bucket) (c : NormalizedContract)
    (hlk : (bucketStep longStrike shortStrike c0 bs).lookup e = some b)
    (hlong : b.long = some c) :
    (∃ b0, bs.lookup e = some b0 ∧ b0.long = some c) ∨
      (c = c0 ∧ c0.expiration = e ∧ approxEqual c0.strike longStrike STRIKE_EPSILON) := by
  unfold bucketStep at hlk
  split at hlk
  · rename_i hL
    by_cases he : e = c0.expiration
    · subst he
      rw [bucketsSet_lookup_self] at hlk
      obtain rfl : _ = b := by simpa using hlk
      simp only at hlong
      obtain rfl : c0 = c := by simpa using hlong
      exact Or.inr ⟨rfl, rfl, hL⟩
    · rw [bucketsSet_lookup_ne _ _ _ _ (by simpa using he)] at hlk
      exact Or.inl ⟨b, hlk, hlong⟩
  · split at hlk
    · by_cases he : e = c0.expiration
      · subst he
        rw [bucketsSet_lookup_self] at hlk
        obtain rfl : _ = b := by simpa using hlk
        simp only at hlong
        cases hbs : bs.lookup c0.expiration with
        | some b0 =>
          rw [hbs] at hlong
          exact Or.inl ⟨b0, rfl, hlong⟩
        | none =>
          rw [hbs] at hlong
          simp [Option.getD] at hlong
      · rw [bucketsSet_lookup_ne _ _ _ _ (by simpa using he)] at hlk
        exact Or.inl ⟨b, hlk, hlong⟩
    · exact Or.inl ⟨b, hlk, hlong⟩

theorem bucketStep_short_sound (longStrike shortStrike : ℚ) (c0 : NormalizedContract)
    (bs : List (String × Bucket)) (e : String) (b : Bucket) (c : NormalizedContract)
    (hlk : (bucketStep longStrike shortStrike c0 bs).lookup e = some b)
    (hshort : b.short = some c) :
    (∃ b0, bs.lookup e = some b0 ∧ b0.short = some c) ∨
      (c = c0 ∧ c0.expiration = e ∧ ¬ approxEqual c0.strike longStrike STRIKE_EPSILON ∧
        approxEqual c0.strike shortStrike STRIKE_EPSILON) := by
  unfold bucketStep at hlk
  split at hlk
  · by_cases he : e = c0.expiration
    · subst he
      rw [bucketsSet_lookup_self] at hlk
      obtain rfl : _ = b := by simpa using hlk
      simp only at hshort
      cases hbs : bs.lookup c0.expiration with
      | some b0 =>
        rw [hbs] at hshort
        exact Or.inl ⟨b0, rfl, hshort⟩
      | none =>
        rw [hbs] at hshort
        simp [Option.getD] at hshort
    · rw [bucketsSet_lookup_ne _ _ _ _ (by simpa using he)] at hlk
      exact Or.inl ⟨b, hlk, hshort⟩
  · split at hlk
    · rename_i hnL hS
      by_cases he : e = c0.expiration
      · subst he
        rw [bucketsSet_lookup_self] at hlk
        obtain rfl : _ = b := by simpa using hlk
        simp only at hshort
        obtain rfl : c0 = c := by simpa using hshort
        exact Or.inr ⟨rfl, rfl, by simpa using hnL, hS⟩
      · rw [bucketsSet_lookup_ne _ _ _ _ (by simpa using he)] at hlk
        exact Or.inl ⟨b, hlk, hshort⟩
    · exact Or.inl ⟨b, hlk, hshort⟩

theorem bucketStep_long_mono (longStrike shortStrike : ℚ) (c0 : NormalizedContract)
    (bs : List (String × Bucket)) (e : String)
    (h : ∃ b0, bs.lookup e = some b0 ∧ b0.long.isSome) :
    ∃ b1, (bucketStep longStrike shortStrike c0 bs).lookup e = some b1 ∧ b1.long.isSome := by
  obtain ⟨b0, hlk, hsome⟩ := h
  unfold bucketStep
  split
  · by_cases he : e = c0.expiration
    · subst he
      exact ⟨_, bucketsSet_lookup_self bs c0.expiration _, by simp⟩
    · exact ⟨b0, by rw [bucketsSet_lookup_ne _ _ _ _ (by simpa using he)]; exact hlk, hsome⟩
  · split
    · by_cases he : e = c0.expiration
      · subst he
        refine ⟨_, bucketsSet_lookup_self bs c0.expiration _, ?_⟩
        simp only [hlk]
        simpa using hsome
      · exact ⟨b0, by rw [bucketsSet_lookup_ne _ _ _ _ (by simpa using he)]; exact hlk, hsome⟩
    · exact ⟨b0, hlk, hsome⟩

theorem bucketStep_short_mono (longStrike shortStrike : ℚ) (c0 : NormalizedContract)
    (bs : List (String × Bucket)) (e : String)
    (h : ∃ b0, bs.lookup e = some b0 ∧ b0.short.isSome) :
    ∃ b1, (bucketStep longStrike shortStrike c0 bs).lookup e = some b1 ∧ b1.short.isSome := by
  obtain ⟨b0, hlk, hsome⟩ := h
  unfold bucketStep
  split
  · by_cases he : e = c0.expiration
    · subst he
      refine ⟨_, bucketsSet_lookup_self bs c0.expiration _, ?_⟩
      simp only [hlk]
      simpa using hsome
    · exact ⟨b0, by rw [bucketsSet_lookup_ne _ _ _ _ (by simpa using he)]; exact hlk, hsome⟩
  · split
    · by_cases he : e = c0.expiration
      · subst he
        exact ⟨_, bucketsSet_lookup_self bs c0.expiration _, by simp⟩
      · exact ⟨b0, by rw [bucketsSet_lookup_ne _ _ _ _ (by simpa using he)]; exact hlk, hsome⟩
    · exact ⟨b0, hlk, hsome⟩


theorem fold_long_sound (longStrike shortStrike : ℚ) :
    ∀ (l : List NormalizedContract) (bs : List (String × Bucket)) (e : String)
      (b : Bucket) (c : NormalizedContract),
      (l.foldl (fun b2 c2 => bucketStep longStrike shortStrike c2 b2) bs).lookup e = some b →
      b.long = some c →
      (∃ b0, bs.lookup e = some b0 ∧ b0.long = some c) ∨
        (c ∈ l ∧ c.expiration = e ∧ approxEqual c.strike longStrike STRIKE_EPSILON)
  | [], bs, e, b, c, hlk, hlong => Or.inl ⟨b, hlk, hlong⟩
  | c0 :: rest, bs, e, b, c, hlk, hlong => by
    rcases fold_long_sound longStrike shortStrike rest _ e b c hlk hlong with
      ⟨b0, hlk0, hlong0⟩ | ⟨hmem, hexp, hap⟩
    · rcases bucketStep_long_sound longStrike shortStrike c0 bs e b0 c hlk0 hlong0 with
        hbs | ⟨rfl, hexp, hap⟩
      · exact Or.inl hbs
      · exact Or.inr ⟨List.mem_cons_self .., hexp, hap⟩
    · exact Or.inr ⟨List.mem_cons_of_mem _ hmem, hexp, hap⟩

theorem fold_short_sound (longStrike shortStrike : ℚ) :
    ∀ (l : List NormalizedContract) (bs : List (String × Bucket)) (e : String)
      (b : Bucket) (c : NormalizedContract),
      (l.foldl (fun b2 c2 => bucketStep longStrike shortStrike c2 b2) bs).lookup e = some b →
      b.short = some c →
      (∃ b0, bs.lookup e = some b0 ∧ b0.short = some c) ∨
        (c ∈ l ∧ c.expiration = e ∧ ¬ approxEqual c.strike longStrike STRIKE_EPSILON ∧
          approxEqual c.strike shortStrike STRIKE_EPSILON)
  | [], bs, e, b, c, hlk, hshort => Or.inl ⟨b, hlk, hshort⟩
  | c0 :: rest, bs, e, b, c, hlk, hshort => by
    rcases fold_short_sound longStrike shortStrike rest _ e b c hlk hshort with
      ⟨b0, hlk0, hshort0⟩ | ⟨hmem, hexp, hap⟩
    · rcases bucketStep_short_sound longStrike shortStrike c0 bs e b0 c hlk0 hshort0 with
        hbs | ⟨rfl, hexp, hap⟩
      · exact Or.inl hbs
      · exact Or.inr ⟨List.mem_cons_self .., hexp, hap⟩
    · exact Or.inr ⟨List.mem_cons_of_mem _ hmem, hexp, hap⟩

theorem fold_long_mono (longStrike shortStrike : ℚ) :
    ∀ (l : List NormalizedContract) (bs : List (String × Bucket)) (e : String),
      (∃ b0, bs.lookup e = some b0 ∧ b0.long.isSome) →
      ∃ b, (l.foldl (fun b2 c2 => bucketStep longStrike shortStrike c2 b2) bs).lookup e =
        some b ∧ b.long.isSome
  | [], _, _, h => h
  | c0 :: rest, bs, e, h =>
    fold_long_mono longStrike shortStrike rest _ e
      (bucketStep_long_mono longStrike shortStrike c0 bs e h)

theorem fold_short_mono (longStrike shortStrike : ℚ) :
    ∀ (l : List NormalizedContract) (bs : List (String × Bucket)) (e : String),
      (∃ b0, bs.lookup e = some b0 ∧ b0.short.isSome) →
      ∃ b, (l.foldl (fun b2 c2 => bucketStep longStrike shortStrike c2 b2) bs).lookup e =
        some b ∧ b.short.isSome
  | [], _, _, h => h
  | c0 :: rest, bs, e, h =>
    fold_short_mono longStrike shortStrike rest _ e
      (bucketStep_short_mono longStrike shortStrike c0 bs e h)

theorem fold_long_complete (longStrike shortStrike : ℚ) :
    ∀ (l : List NormalizedContract) (bs : List (String × Bucket)) (e : String),
      (∃ c ∈ l, c.expiration = e ∧ approxEqual c.strike longStrike STRIKE_EPSILON) →
      ∃ b, (l.foldl (fun b2 c2 => bucketStep longStrike shortStrike c2 b2) bs).lookup e =
        some b ∧ b.long.isSome
  | [], _, _, h => by simp at h
  | c0 :: rest, bs, e, h => by
    rcases h with ⟨c, hc, hexp, hap⟩
    rcases List.mem_cons.mp hc with rfl | hc2
    · refine fold_long_mono longStrike shortStrike rest _ e ?_
      subst hexp
      simp only [bucketStep]
      rw [if_pos hap]
      exact ⟨_, bucketsSet_lookup_self bs c.expiration _, by simp⟩
    · exact fold_long_complete longStrike shortStrike rest _ e ⟨c, hc2, hexp, hap⟩

theorem fold_short_complete (longStrike shortStrike : ℚ) :
    ∀ (l : List NormalizedContract) (bs : List (String × Bucket)) (e : String),
      (∃ c ∈ l, c.expiration = e ∧ ¬ approxEqual c.strike longStrike STRIKE_EPSILON ∧
        approxEqual c.strike shortStrike STRIKE_EPSILON) →
      ∃ b, (l.foldl (fun b2 c2 => bucketStep longStrike shortStrike c2 b2) bs).lookup e =
        some b ∧ b.short.isSome
  | [], _, _, h => by simp at h
  | c0 :: rest, bs, e, h => by
    rcases h with ⟨c, hc, hexp, hnap, hap⟩
    rcases List.mem_cons.mp hc with rfl | hc2
    · refine fold_short_mono longStrike shortStrike rest _ e ?_
      subst hexp
      simp only [bucketStep]
      rw [if_neg (by simpa using hnap), if_pos hap]
      exact ⟨_, bucketsSet_lookup_self bs c.expiration _, by simp⟩
    · exact fold_short_complete longStrike shortStrike rest _ e ⟨c, hc2, hexp, hnap, hap⟩

theorem chainMatchLe_trans (a b c : ChainMatch)
    (h1 : chainMatchLe a b = true) (h2 : chainMatchLe b c = true) :
    chainMatchLe a c = true := by
  simp only [chainMatchLe, decide_eq_true_eq] at *
  omega

theorem chainMatchLe_total (a b : ChainMatch) :
    (chainMatchLe a b || chainMatchLe b a) = true := by
  simp only [chainMatchLe, Bool.or_eq_true, decide_eq_true_eq]
  omega

theorem mergeSort_head_min (l : List ChainMatch) (m : ChainMatch) (tl : List ChainMatch)
    (hs : l.mergeSort chainMatchLe = m :: tl) :
    m ∈ l ∧ ∀ y ∈ l, chainMatchLe m y = true := by
  have hmem : m ∈ l := List.mem_mergeSort.mp (hs ▸ List.mem_cons_self ..)
  refine ⟨hmem, fun y hy => ?_⟩
  have hsorted := @List.sorted_mergeSort ChainMatch chainMatchLe
    (fun a b c => chainMatchLe_trans a b c)
    (fun a b => chainMatchLe_total a b) l
  rw [hs] at hsorted
  have hy2 : y ∈ m :: tl := hs ▸ List.mem_mergeSort.mpr hy
  rcases List.mem_cons.mp hy2 with rfl | hy3
  · simp [chainMatchLe]
  · exact (List.pairwise_cons.mp hsorted).1 y hy3


/-- C5: when at least two distinct expirations each contain a contract
matching the long strike and a contract matching the short strike (within
epsilon), `pickBestMatch` with no explicit expiration returns a qualifying
pair — long and short legs drawn from the list, matching the respective
strikes, sharing the pair's expiration — whose expiration date is
chronologically earliest among all qualifying expirations. -/
theorem C5_pickBestMatch_earliest (contracts : List NormalizedContract)
    (longStrike shortStrike : ℚ) (e1 e2 : String)
    (_hvalid : ∀ c ∈ contracts, (dateParseMs c.expiration).isSome)
    (_hne : e1 ≠ e2)
    (h1L : ∃ c ∈ contracts, c.expiration = e1 ∧
      approxEqual c.strike longStrike STRIKE_EPSILON)
    (h1S : ∃ c ∈ contracts, c.expiration = e1 ∧
      ¬ approxEqual c.strike longStrike STRIKE_EPSILON ∧
      approxEqual c.strike shortStrike STRIKE_EPSILON)
    (_h2L : ∃ c ∈ contracts, c.expiration = e2 ∧
      approxEqual c.strike longStrike STRIKE_EPSILON)
    (_h2S : ∃ c ∈ contracts, c.expiration = e2 ∧
      ¬ approxEqual c.strike longStrike STRIKE_EPSILON ∧
      approxEqual c.strike shortStrike STRIKE_EPSILON) :
    ∃ m, pickBestMatch contracts longStrike shortStrike none = .ok (some m) ∧
      m.long ∈ contracts ∧ m.long.expiration = m.expiration ∧
      approxEqual m.long.strike longStrike STRIKE_EPSILON ∧
      m.short ∈ contracts ∧ m.short.expiration = m.expiration ∧
      ¬ approxEqual m.short.strike longStrike STRIKE_EPSILON ∧
      approxEqual m.short.strike shortStrike STRIKE_EPSILON ∧
      ∀ e, (∃ c ∈ contracts, c.expiration = e ∧
          approxEqual c.strike longStrike STRIKE_EPSILON) →
        (∃ c ∈ contracts, c.expiration = e ∧
          ¬ approxEqual c.strike longStrike STRIKE_EPSILON ∧
          approxEqual c.strike shortStrike STRIKE_EPSILON) →
        expirationSortMs m.expiration ≤ expirationSortMs e := by
  have hfill := fillBuckets_none longStrike shortStrike contracts []
  have hnodup : (((contracts.foldl (fun b c => bucketStep longStrike shortStrike c b)
      []).map Prod.fst)).Nodup :=
    fold_buckets_nodup longStrike shortStrike contracts [] (by simp)
  -- the qualifying candidate for an expiration with both matchers
  have hcand : ∀ e, (∃ c ∈ contracts, c.expiration = e ∧
      approxEqual c.strike longStrike STRIKE_EPSILON) →
      (∃ c ∈ contracts, c.expiration = e ∧
        ¬ approxEqual c.strike longStrike STRIKE_EPSILON ∧
        approxEqual c.strike shortStrike STRIKE_EPSILON) →
      ∃ cm : ChainMatch, cm ∈ ((contracts.foldl
          (fun b c => bucketStep longStrike shortStrike c b) []).filterMap fun eb =>
        match eb.2.long, eb.2.short with
        | some l, some s => some (ChainMatch.mk eb.1 l s)
        | _, _ => none) ∧ cm.expiration = e := by
    intro e heL heS
    obtain ⟨bL, hlkL, hLsome⟩ := fold_long_complete longStrike shortStrike contracts [] e heL
    obtain ⟨bS, hlkS, hSsome⟩ := fold_short_complete longStrike shortStrike contracts [] e heS
    obtain rfl : bL = bS := by rw [hlkL] at hlkS; exact (Option.some.injEq .. ▸ hlkS).symm ▸ rfl
    obtain ⟨lc, hlc⟩ := Option.isSome_iff_exists.mp hLsome
    obtain ⟨sc, hsc⟩ := Option.isSome_iff_exists.mp hSsome
    refine ⟨ChainMatch.mk e lc sc, ?_, rfl⟩
    refine List.mem_filterMap.mpr ⟨(e, bL), mem_of_lookup _ e bL hlkL, ?_⟩
    simp [hlc, hsc]
  obtain ⟨cm1, hcm1, hcm1e⟩ := hcand e1 h1L h1S
  set candidates := ((contracts.foldl (fun b c => bucketStep longStrike shortStrike c b)
      []).filterMap fun eb =>
    match eb.2.long, eb.2.short with
    | some l, some s => some (ChainMatch.mk eb.1 l s)
    | _, _ => none) with hcands
  have hne2 : candidates.mergeSort chainMatchLe ≠ [] := by
    intro h0
    have hlen := (List.mergeSort_perm candidates chainMatchLe).length_eq
    rw [h0] at hlen
    have hcnil : candidates = [] := List.length_eq_zero.mp hlen.symm
    rw [hcnil] at hcm1
    simp at hcm1
  cases hs : candidates.mergeSort chainMatchLe with
  | nil => exact absurd hs hne2
  | cons m tl =>
    obtain ⟨hmmem, hmin⟩ := mergeSort_head_min candidates m tl hs
    -- structure of the chosen candidate
    obtain ⟨⟨e, b⟩, hmemB, hf⟩ := List.mem_filterMap.mp hmmem
    have hlkm : (contracts.foldl (fun b2 c => bucketStep longStrike shortStrike c b2)
        []).lookup e = some b :=
      lookup_of_mem_nodup _ e b hnodup hmemB
    cases hbl : b.long with
    | none => rw [hbl] at hf; simp at hf
    | some lc =>
      cases hbs : b.short with
      | none => rw [hbl, hbs] at hf; simp at hf
      | some sc =>
        rw [hbl, hbs] at hf
        obtain rfl : ChainMatch.mk e lc sc = m := by simpa using hf
        have hlsound := fold_long_sound longStrike shortStrike contracts [] e b lc hlkm hbl
        have hssound := fold_short_sound longStrike shortStrike contracts [] e b sc hlkm hbs
        rcases hlsound with ⟨b0, hb0, _⟩ | ⟨hlmem, hlexp, hlap⟩
        · simp [List.lookup] at hb0
        rcases hssound with ⟨b0, hb0, _⟩ | ⟨hsmem, hsexp, hsnap, hsap⟩
        · simp [List.lookup] at hb0
        refine ⟨ChainMatch.mk e lc sc, ?_, hlmem, hlexp, hlap, hsmem, hsexp, hsnap, hsap, ?_⟩
        · simp only [pickBestMatch, hfill]
          rw [← hcands, hs]
          rfl
        · intro e3 he3L he3S
          obtain ⟨cm3, hcm3, hcm3e⟩ := hcand e3 he3L he3S
          have hle := hmin cm3 hcm3
          simp only [chainMatchLe, decide_eq_true_eq] at hle
          rw [hcm3e] at hle
          exact hle


/-- C5 witness: two expirations (2024-09-20 and 2024-10-18) both holding
strikes 100 and 110. -/
theorem C5_pickBestMatch_earliest_witness :
    ∃ m, pickBestMatch c5Contracts 100 110 none = .ok (some m) ∧
      m.long ∈ c5Contracts ∧ m.long.expiration = m.expiration ∧
      approxEqual m.long.strike 100 STRIKE_EPSILON ∧
      m.short ∈ c5Contracts ∧ m.short.expiration = m.expiration ∧
      ¬ approxEqual m.short.strike 100 STRIKE_EPSILON ∧
      approxEqual m.short.strike 110 STRIKE_EPSILON ∧
      ∀ e, (∃ c ∈ c5Contracts, c.expiration = e ∧ approxEqual c.strike 100 STRIKE_EPSILON) →
        (∃ c ∈ c5Contracts, c.expiration = e ∧ ¬ approxEqual c.strike 100 STRIKE_EPSILON ∧
          approxEqual c.strike 110 STRIKE_EPSILON) →
        expirationSortMs m.expiration ≤ expirationSortMs e :=
  C5_pickBestMatch_earliest c5Contracts 100 110 "2024-09-20" "2024-10-18"
    (by decide) (by decide)
    ⟨{ symbol := "L1", strike := 100, expiration := "2024-09-20", quote := none },
      by simp [c5Contracts], rfl, by norm_num [approxEqual, STRIKE_EPSILON]⟩
    ⟨{ symbol := "S1", strike := 110, expiration := "2024-09-20", quote := none },
      by simp [c5Contracts], rfl, by norm_num [approxEqual, STRIKE_EPSILON],
      by norm_num [approxEqual, STRIKE_EPSILON]⟩
    ⟨{ symbol := "L2", strike := 100, expiration := "2024-10-18", quote := none },
      by simp [c5Contracts], rfl, by norm_num [approxEqual, STRIKE_EPSILON]⟩
    ⟨{ symbol := "S2", strike := 110, expiration := "2024-10-18", quote := none },
      by simp [c5Contracts], rfl, by norm_num [approxEqual, STRIKE_EPSILON],
      by norm_num [approxEqual, STRIKE_EPSILON]⟩


/-! ## Pagination lemmas (C8) -/

/-- Shared helper: invariants of the capped `options.ts` pagination loop —
request count bounded by the remaining pages, counter advance, the first
request carries the loop's incoming token, each later request carries
exactly the token of the previous response, and the loop stops right
after a token-less page. -/
theorem chainPaginate_spec (net : NetOracle) :
    ∀ (p n : Nat) (tok : Option String) (acc : List NormalizedContract),
      (chainPaginate net n p tok acc).2.2.length ≤ p ∧
      (chainPaginate net n p tok acc).2.1 = n + (chainPaginate net n p tok acc).2.2.length ∧
      ((chainPaginate net n p tok acc).2.2 ≠ [] →
        (chainPaginate net n p tok acc).2.2[0]? = some tok) ∧
      (∀ i, i + 1 < (chainPaginate net n p tok acc).2.2.length →
        ∃ payload, net (n + i) = .ok payload ∧ ∃ t, extractNextToken payload = some t ∧
          (chainPaginate net n p tok acc).2.2[i + 1]? = some (some t)) ∧
      (∀ i payload, i < (chainPaginate net n p tok acc).2.2.length →
        net (n + i) = .ok payload → extractNextToken payload = none →
        (chainPaginate net n p tok acc).2.2.length = i + 1)
  | 0, n, tok, acc => by simp [chainPaginate]
  | p + 1, n, tok, acc => by
    cases hnet : net n with
    | error u =>
      simp only [chainPaginate, hnet]
      refine ⟨by simp, by simp, by simp, by simp, ?_⟩
      intro i payload hi hnet2 _
      simp at hi
      subst hi
      rw [Nat.add_zero, hnet] at hnet2
      exact absurd hnet2 (by simp)
    | ok payload =>
      cases hg : gatherContractsFromResponse payload with
      | error e =>
        simp only [chainPaginate, hnet, hg]
        refine ⟨by simp, by simp, by simp, by simp, ?_⟩
        intro i payload2 hi _ _
        simp at hi ⊢
        omega
      | ok cs =>
        cases hx : extractNextToken payload with
        | none =>
          simp only [chainPaginate, hnet, hg, hx]
          refine ⟨by simp, by simp, by simp, by simp, ?_⟩
          intro i payload2 hi _ _
          simp at hi ⊢
          omega
        | some t =>
          obtain ⟨ih1, ih2, ih3, ih4, ih5⟩ := chainPaginate_spec net p (n + 1) (some t) (acc ++ cs)
          simp only [chainPaginate, hnet, hg, hx, List.length_cons]
          refine ⟨by omega, by omega, by simp, ?_, ?_⟩
          · intro i hi
            cases i with
            | zero =>
              refine ⟨payload, by rw [Nat.add_zero]; exact hnet, t, hx, ?_⟩
              rw [List.getElem?_cons_succ]
              refine ih3 ?_
              intro hnil
              rw [hnil] at hi
              simp at hi
            | succ j =>
              have hj : j + 1 < (chainPaginate net (n + 1) p (some t) (acc ++ cs)).2.2.length := by
                omega
              obtain ⟨payload2, hnet2, t2, hx2, hget⟩ := ih4 j hj
              refine ⟨payload2, ?_, t2, hx2, ?_⟩
              · rw [show n + (j + 1) = n + 1 + j by omega]
                exact hnet2
              · rw [List.getElem?_cons_succ]
                exact hget
          · intro i payload2 hi hnet2 hx2
            cases i with
            | zero =>
              rw [Nat.add_zero, hnet] at hnet2
              obtain rfl : payload = payload2 := by simpa using hnet2
              rw [hx] at hx2
              exact absurd hx2 (by simp)
            | succ j =>
              have hj : j < (chainPaginate net (n + 1) p (some t) (acc ++ cs)).2.2.length := by
                omega
              have := ih5 j payload2 hj
                (by rw [show n + 1 + j = n + (j + 1) by omega]; exact hnet2) hx2
              omega


/-- C8 (amended, `options.ts` part): the `options.ts` chain pagination
issues at most 4 page fetches per endpoint variant, each request after the
first carries exactly the continuation token of the previous response,
and the endpoint stops paginating as soon as a page yields no
continuation token. -/
theorem C8_chainPaginate_cap (net : NetOracle) (n : Nat) :
    (chainPaginate net n 4 none []).2.2.length ≤ 4 ∧
    (∀ i, i + 1 < (chainPaginate net n 4 none []).2.2.length →
      ∃ payload, net (n + i) = .ok payload ∧ ∃ t, extractNextToken payload = some t ∧
        (chainPaginate net n 4 none []).2.2[i + 1]? = some (some t)) ∧
    (∀ i payload, i < (chainPaginate net n 4 none []).2.2.length →
      net (n + i) = .ok payload → extractNextToken payload = none →
      (chainPaginate net n 4 none []).2.2.length = i + 1) := by
  obtain ⟨h1, _, _, h4, h5⟩ := chainPaginate_spec net 4 n none []
  exact ⟨h1, h4, h5⟩

/-- C8 witness: an oracle with tokens on the first two pages — 3 fetches,
token followed, early stop after the token-less third page. -/
theorem C8_chainPaginate_cap_witness :
    (chainPaginate c8Net 0 4 none []).2.2.length ≤ 4 ∧
    (∃ payload, c8Net (0 + 0) = .ok payload ∧ ∃ t, extractNextToken payload = some t ∧
      (chainPaginate c8Net 0 4 none []).2.2[0 + 1]? = some (some t)) ∧
    (chainPaginate c8Net 0 4 none []).2.2.length = 2 + 1 :=
  ⟨(C8_chainPaginate_cap c8Net 0).1,
    (C8_chainPaginate_cap c8Net 0).2.1 0 (by decide),
    (C8_chainPaginate_cap c8Net 0).2.2 2 (.obj []) (by decide) (by rfl) (by decide)⟩

/-- C8 counterexample: the `longCall.ts` variant has no page cap.  With
tokens on the first five pages it issues 6 fetches on the first endpoint
(the run completes normally — the fuel parameter does not bind), so "at
most 4 page fetches per endpoint variant" is false for that variant. -/
theorem C8_counterexample :
    (chainPaginateLC c8NetLC 0 10 none []).2.2.length = 6 ∧
    (chainPaginateLC c8NetLC 0 100 none []).2.2.length = 6 ∧
    (chainPaginateLC c8NetLC 0 10 none []).1 = some [] ∧
    ¬ (chainPaginateLC c8NetLC 0 10 none []).2.2.length ≤ 4 := by
  refine ⟨by decide, by decide, by decide, by decide⟩



/-- C9: when the symbol is empty after trimming, or either strike is not a
finite number, `fetchSpreadMidDebit` fails with the validation error
naming the offending parameter, and the request counter is unchanged —
zero network requests are issued. -/
theorem C9_fetchSpreadMidDebit_validation (net : NetOracle) (n : Nat)
    (params : FetchSpreadDebitParams) :
    (jsTrim params.symbol = "" →
      fetchSpreadMidDebit net n params =
        (.error "Symbol is required for Alpaca lookup.", n)) ∧
    (jsTrim params.symbol ≠ "" →
      ¬ (params.longStrike.isFinite ∧ params.shortStrike.isFinite) →
      fetchSpreadMidDebit net n params =
        (.error "Both longStrike and shortStrike must be finite numbers.", n)) := by
  constructor
  · intro h
    simp [fetchSpreadMidDebit, h]
  · intro h1 h2
    have hb : ¬ (params.longStrike.isFinite && params.shortStrike.isFinite) = true := by
      simpa [Bool.and_eq_true] using h2
    simp [fetchSpreadMidDebit, h1, hb]

/-- C9 witness: a whitespace-only symbol and a NaN strike each fail with
the named validation error and zero requests. -/
theorem C9_fetchSpreadMidDebit_validation_witness :
    fetchSpreadMidDebit (fun _ => .error ()) 0
      { symbol := "  ", longStrike := .val 100, shortStrike := .val 110,
        expiration := none } =
      (.error "Symbol is required for Alpaca lookup.", 0) ∧
    fetchSpreadMidDebit (fun _ => .error ()) 0
      { symbol := "TSLA", longStrike := .nan, shortStrike := .val 110,
        expiration := none } =
      (.error "Both longStrike and shortStrike must be finite numbers.", 0) :=
  ⟨(C9_fetchSpreadMidDebit_validation (fun _ => .error ()) 0
      { symbol := "  ", longStrike := .val 100, shortStrike := .val 110,
        expiration := none }).1 (by decide),
    (C9_fetchSpreadMidDebit_validation (fun _ => .error ()) 0
      { symbol := "TSLA", longStrike := .nan, shortStrike := .val 110,
        expiration := none }).2 (by decide) (by decide)⟩

end OptionCalc
